import Mathlib

/-!
# Log file naming and creation (`common/log/log_file.go`)

A shallow embedding of `shortHostname`, `init`, `logName` and `create`.

* Go strings are modelled by `String`; positions count characters, which for
  the ASCII separators searched for here cuts at the same place as Go's byte
  positions.
* The package level variables `pid`, `program`, `host`, `userName` are the
  fields of `Identity`, and `LogDir` is an explicit argument of `create`.
* The calls into the Go standard library and the operating system
  (`fmt.Sprintf`, `strings.Index`, `strings.Replace`, `filepath.Join`,
  `os.MkdirAll`, `os.OpenFile`, `os.Remove`, `os.Symlink`) are modelled
  beside the code that uses them.
* `create` is written over an arbitrary operating system `OS`. What the
  statements about the file system assume of it is collected in `Lawful`;
  the file system `FS` obeys these assumptions and serves for the examples.
-/

namespace LogFile

/-! ## `fmt.Sprintf`, for the verbs `%s` and `%d` -/

/-- An operand of `fmt.Sprintf`: a string or an integer. -/
inductive Arg where
  | str (s : String)
  | int (i : Int)
  deriving DecidableEq, Repr

/-- The digit loop of `fmt.fmtInteger` in base 10:
`for u >= 10 { i--; next := u / 10; buf[i] = byte('0' + u - next*10); u = next }`
followed by `i--; buf[i] = digits[u]`. The first argument bounds the number
of iterations; `u` itself is always enough. -/
def fmtDigits : Nat → Nat → List Char → List Char
  | 0, u, buf => Char.ofNat (48 + u % 10) :: buf
  | fuel + 1, u, buf =>
    if 10 ≤ u then fmtDigits fuel (u / 10) (Char.ofNat (48 + (u - u / 10 * 10)) :: buf)
    else Char.ofNat (48 + u) :: buf

/-- The function `fmt.fmtInteger` for a signed operand in base 10 without the
plus, minus and space flags: with the zero flag and a width the digits are
padded with zeros to the width, less one when the value is negative; the sign
is put in front; what is still shorter than the width is padded with blanks
on the left. -/
def fmtInteger (zero : Bool) (wid : Option Nat) (v : Int) : List Char :=
  let negative := decide (v < 0)
  let u := v.natAbs
  let prec :=
    match zero, wid with
    | true, some w => if negative then w - 1 else w
    | _, _ => 0
  let ds := fmtDigits u u []
  let ds := List.replicate (prec - ds.length) '0' ++ ds
  let ds := if negative then '-' :: ds else ds
  List.replicate (wid.getD 0 - ds.length) ' ' ++ ds

/-- The function `fmt.fmtS` without flags: the string, padded with blanks on
the left up to the width. -/
def fmtS (wid : Option Nat) (s : String) : List Char :=
  List.replicate (wid.getD 0 - s.length) ' ' ++ s.data

/-- Where the scan of a format string stands: in literal text, or inside a
directive after `%` with the zero flag and the width read so far. -/
inductive Scan where
  | text
  | directive (zero : Bool) (wid : Option Nat)

/-- One operand printed under one verb. A verb that does not fit the operand
gives the marker Go prints for it, shortened to `%!verb(BAD)`. -/
def printArg (verb : Char) (zero : Bool) (wid : Option Nat) : Arg → List Char
  | Arg.str s => if verb = 's' then fmtS wid s else ['%', '!', verb, '(', 'B', 'A', 'D', ')']
  | Arg.int i =>
    if verb = 'd' then fmtInteger zero wid i else ['%', '!', verb, '(', 'B', 'A', 'D', ')']

/-- The loop of `fmt.doPrintf` over the format: literal text is copied, a
`%` opens a directive, a `0` before the width sets the zero flag, digits give
the width, and the verb consumes the next operand. -/
def doPrintf : List Char → Scan → List Arg → List Char
  | [], Scan.text, [] => []
  | [], Scan.text, _ :: _ => "%!(EXTRA)".data
  | [], Scan.directive _ _, _ => "%!(NOVERB)".data
  | c :: cs, Scan.text, args =>
    if c = '%' then doPrintf cs (Scan.directive false none) args
    else c :: doPrintf cs Scan.text args
  | c :: cs, Scan.directive zero wid, args =>
    if c = '0' ∧ wid = none then doPrintf cs (Scan.directive true none) args
    else if c.isDigit then
      doPrintf cs (Scan.directive zero (some (wid.getD 0 * 10 + (c.toNat - 48)))) args
    else if c = '%' then '%' :: doPrintf cs Scan.text args
    else
      match args with
      | [] => ['%', '!', c, '(', 'M', 'I', 'S', 'S', 'I', 'N', 'G', ')'] ++ doPrintf cs Scan.text []
      | a :: rest => printArg c zero wid a ++ doPrintf cs Scan.text rest

/-- The function `fmt.Sprintf`. -/
def Sprintf (format : String) (args : List Arg) : String :=
  String.mk (doPrintf format.data Scan.text args)

/-! ## Process identity and `init` -/

/-- The function `strings.Index`, searching from position `i` on: the
position of the first occurrence of `substr`, or `-1`. -/
def indexFrom (substr : List Char) : List Char → Nat → Int
  | [], i => if substr = [] then (i : Int) else -1
  | c :: cs, i => if substr.isPrefixOf (c :: cs) then (i : Int) else indexFrom substr cs (i + 1)

/-- The function `strings.Index`. -/
def stringsIndex (s substr : String) : Int :=
  indexFrom substr.data s.data 0

/-- The function `strings.Replace` for a non-empty `old`, scanning one
character at a time: `skip` is the number of characters of a match still to
be passed over, and `n` the number of replacements left, none when there is
no limit. -/
def replaceFrom (old new : List Char) : List Char → Nat → Option Nat → List Char
  | [], _, _ => []
  | _ :: cs, skip + 1, n => replaceFrom old new cs skip n
  | c :: cs, 0, n =>
    if n ≠ some 0 ∧ old.isPrefixOf (c :: cs) then
      new ++ replaceFrom old new cs (old.length - 1) (n.map fun k => k - 1)
    else c :: replaceFrom old new cs 0 n

/-- The function `strings.Replace`: the first `n` non-overlapping instances
of `old` in `s` are replaced by `new`, all of them when `n < 0`. An empty
`old` matches before every character and at the end. -/
def stringsReplace (s old new : String) (n : Int) : String :=
  let limit : Option Nat := if n < 0 then none else some n.toNat
  if old = new ∨ n = 0 then s
  else if old.data = [] then
    match limit with
    | none => String.mk (new.data ++ s.data.flatMap fun c => c :: new.data)
    | some k =>
      String.mk ((s.data.take k).flatMap (fun c => new.data ++ [c]) ++
        (if s.data.length < k then new.data else []) ++ s.data.drop k)
  else String.mk (replaceFrom old.data new.data s.data 0 limit)

/-- The package level variables `pid`, `program`, `host` and `userName`. -/
structure Identity where
  pid : Int
  program : String
  host : String
  userName : String
  deriving DecidableEq, Repr

/-- The function `shortHostname`: its argument, truncated at the first
period. -/
def shortHostname (hostname : String) : String :=
  let i := stringsIndex hostname "."
  if 0 ≤ i then String.mk (hostname.data.take i.toNat) else hostname

/-- The variable initialisers: `pid` and `program` come from the process,
`host` and `userName` start as placeholders. -/
def initialIdentity (pid : Int) (program : String) : Identity :=
  { pid := pid, program := program, host := "unknownhost", userName := "unknownuser" }

/-- The function `init`. `hostname` and `current` are what `os.Hostname()`
and `user.Current()` returned, `none` standing for an error. -/
def init (st : Identity) (hostname : Option String) (current : Option String) : Identity :=
  let st := match hostname with
    | some h => { st with host := shortHostname h }
    | none => st
  let st := match current with
    | some u => { st with userName := u }
    | none => st
  { st with userName := stringsReplace st.userName "\\" "_" (-1) }

/-! ## `logName` -/

/-- What `logName` reads off a `time.Time`: the results of `Year`, `Month`,
`Day`, `Hour`, `Minute` and `Second`, and the nanoseconds it ignores. -/
structure Time where
  year : Int
  month : Nat
  day : Nat
  hour : Nat
  minute : Nat
  second : Nat
  nanosecond : Nat
  deriving DecidableEq, Repr

/-- The ranges `time.Time` keeps its calendar fields in. -/
def Time.valid (t : Time) : Prop :=
  1 ≤ t.month ∧ t.month ≤ 12 ∧ 1 ≤ t.day ∧ t.day ≤ 31 ∧
    t.hour ≤ 23 ∧ t.minute ≤ 59 ∧ t.second ≤ 59

instance (t : Time) : Decidable t.valid := by
  unfold Time.valid; infer_instance

/-- The function `logName`: a new log file name containing `tag`, with start
time `t`, and the name for the symlink for `tag`. -/
def logName (st : Identity) (tag : String) (t : Time) : String × String :=
  let name := Sprintf "%s.%s.%s.log.%s.%04d%02d%02d-%02d%02d%02d.%d"
    [Arg.str st.program, Arg.str st.host, Arg.str st.userName, Arg.str tag,
      Arg.int t.year, Arg.int t.month, Arg.int t.day,
      Arg.int t.hour, Arg.int t.minute, Arg.int t.second, Arg.int st.pid]
  (name, st.program ++ "." ++ tag)

/-! ## `create` -/

/-- The calls `create` makes into `path/filepath` and `os`, over a state of
the world `σ`, with handles of open files `φ`. Each call gives the state
after it and its result: an error message, `none` for a nil error. -/
structure OS (σ : Type) (φ : Type) where
  Join : String → String → String
  MkdirAll : String → Nat → σ → σ × Option String
  OpenFile : String → Nat → Nat → σ → σ × Except String φ
  Remove : String → σ → σ × Option String
  Symlink : String → String → σ → σ × Option String

/-- The constant `os.ModePerm`, octal 777. -/
def ModePerm : Nat := 0o777

/-- The constant `os.O_RDWR`. -/
def O_RDWR : Nat := 0x2

/-- The constant `os.O_CREATE`. -/
def O_CREATE : Nat := 0x40

/-- The constant `os.O_EXCL`. -/
def O_EXCL : Nat := 0x80

/-- The constant `os.O_TRUNC`. -/
def O_TRUNC : Nat := 0x200

/-- What `create` returns, `(f *os.File, filename string, err error)`, and
the state of the world it leaves. -/
structure Created (σ : Type) (φ : Type) where
  world : σ
  f : Option φ
  filename : String
  err : Option String

/-- The function `create`: creates a new log file and returns the file and
its filename, which contains `tag` and `t`. If the file is created
successfully, `create` also attempts to update the symlink for that tag,
ignoring errors. -/
def create {σ φ : Type} (os : OS σ φ) (LogDir : String) (st : Identity) (tag : String)
    (t : Time) (w : σ) : Created σ φ :=
  if LogDir = "" then ⟨w, none, "", some "log: no log dirs"⟩
  else
    match os.MkdirAll LogDir ModePerm w with
    | (w, some err) => ⟨w, none, "", some ("log: cannot mkdir: " ++ err)⟩
    | (w, none) =>
      let (name, link) := logName st tag t
      let fname := os.Join LogDir name
      match os.OpenFile fname (O_RDWR ||| O_CREATE) 0o666 w with
      | (w, Except.error err) => ⟨w, none, "", some ("log: cannot mkdir: " ++ err)⟩
      | (w, Except.ok f) =>
        let symlink := os.Join LogDir link
        let (w, _) := os.Remove symlink w -- ignore err
        let (w, _) := os.Symlink name symlink w -- ignore err
        ⟨w, some f, fname, none⟩

/-- A call into `os`, with its arguments. -/
inductive Call where
  | mkdirAll (path : String) (perm : Nat)
  | openFile (name : String) (flag : Nat) (perm : Nat)
  | remove (name : String)
  | symlink (oldname : String) (newname : String)
  deriving DecidableEq, Repr

/-- An operating system that also keeps the list of the calls made to it. -/
def OS.recording {σ φ : Type} (os : OS σ φ) : OS (σ × List Call) φ where
  Join := os.Join
  MkdirAll path perm w :=
    ((( os.MkdirAll path perm w.1).1, w.2 ++ [Call.mkdirAll path perm]),
      (os.MkdirAll path perm w.1).2)
  OpenFile name flag perm w :=
    (((os.OpenFile name flag perm w.1).1, w.2 ++ [Call.openFile name flag perm]),
      (os.OpenFile name flag perm w.1).2)
  Remove name w := (((os.Remove name w.1).1, w.2 ++ [Call.remove name]), (os.Remove name w.1).2)
  Symlink oldname newname w :=
    (((os.Symlink oldname newname w.1).1, w.2 ++ [Call.symlink oldname newname]),
      (os.Symlink oldname newname w.1).2)

/-! ## A file system for `create` to run on -/

/-- An entry of the file system: a regular file with its contents, a
symbolic link with its target, or a directory. -/
inductive Node where
  | file (data : String)
  | symlink (target : String)
  | dir
  deriving DecidableEq, Repr

/-- A file system: the entry at each path, and the paths at which the
system refuses to make or remove an entry (permission denied, a directory
that is not empty). An entry is kept under the path it was made at; paths
are looked up as they are written, and a symbolic link at the end of a path
is followed by `FS.follow`. -/
structure FS where
  node : String → Option Node
  denied : String → Bool

/-- An open file, `*os.File`: the name it was opened under. -/
structure File where
  name : String
  deriving DecidableEq, Repr

/-- The file system with the entry at `path` set to `n`. -/
def FS.set (fs : FS) (path : String) (n : Option Node) : FS :=
  { fs with node := fun q => if q = path then n else fs.node q }

/-- The directories above `path`, outermost first: what stands before each
separator of `path` after its first character. -/
def ancestors (path : String) : List String :=
  (List.range path.data.length).filterMap fun i =>
    if 0 < i ∧ path.data[i]? = some '/' then some (String.mk (path.data.take i)) else none

/-- The path a symbolic link at `path` with the target `target` leads to:
the target itself when it is absolute, and otherwise the target within the
directory of the link. -/
def linkTarget (path target : String) : String :=
  if target.data.head? = some '/' then target
  else
    match (ancestors path).getLast? with
    | some d => d ++ "/" ++ target
    | none => target

/-- The path reached from `path` by following symbolic links, at most as
many as the first argument says; `none` when there are more. -/
def FS.follow (fs : FS) : Nat → String → Option String
  | 0, _ => none
  | fuel + 1, path =>
    match fs.node path with
    | some (Node.symlink target) => FS.follow fs fuel (linkTarget path target)
    | _ => some path

/-- The number of symbolic links followed before giving up. -/
def maxLinks : Nat := 40

/-- Whether `path` is a directory, or a symbolic link that leads to one. -/
def FS.isDir (fs : FS) (path : String) : Bool :=
  match fs.follow maxLinks path with
  | some p => decide (fs.node p = some Node.dir)
  | none => false

/-- Whether the directory that an entry at `path` would be made in is
there: the innermost of the directories above `path`, if it has any. -/
def FS.parentOK (fs : FS) (path : String) : Bool :=
  match (ancestors path).getLast? with
  | some d => fs.isDir d
  | none => true

/-- The directories of the list are made where they are missing, outermost
first; one that is there, or is a link to one, is passed over, and any other
entry in the way is an error. -/
def FS.mkdirs (fs : FS) : List String → FS × Option String
  | [] => (fs, none)
  | d :: ds =>
    if fs.isDir d then FS.mkdirs fs ds
    else
      match fs.node d with
      | none =>
        if fs.denied d then (fs, some ("mkdir " ++ d ++ ": permission denied"))
        else FS.mkdirs (fs.set d (some Node.dir)) ds
      | some _ => (fs, some ("mkdir " ++ d ++ ": not a directory"))

/-- The function `os.MkdirAll`: the directory `path` is made, with the
directories above it that are missing. -/
def FS.MkdirAll (path : String) (_perm : Nat) (fs : FS) : FS × Option String :=
  FS.mkdirs fs (ancestors path ++ [path])

/-- The function `os.OpenFile`: symbolic links at `name` are followed; with
`O_CREATE` a missing file is made, empty, in a directory that is there; an
existing file is opened as it is, emptied under `O_TRUNC`, and refused under
`O_CREATE|O_EXCL`. -/
def FS.OpenFile (name : String) (flag : Nat) (_perm : Nat) (fs : FS) : FS × Except String File :=
  match fs.follow maxLinks name with
  | none => (fs, Except.error ("open " ++ name ++ ": too many levels of symbolic links"))
  | some path =>
    if flag &&& O_CREATE ≠ 0 ∧ flag &&& O_EXCL ≠ 0 ∧ fs.node name ≠ none then
      (fs, Except.error ("open " ++ name ++ ": file exists"))
    else
      match fs.node path with
      | none =>
        if flag &&& O_CREATE = 0 ∨ fs.parentOK path = false then
          (fs, Except.error ("open " ++ name ++ ": no such file or directory"))
        else if fs.denied path then
          (fs, Except.error ("open " ++ name ++ ": permission denied"))
        else (fs.set path (some (Node.file "")), Except.ok ⟨name⟩)
      | some (Node.file _) =>
        if flag &&& O_TRUNC ≠ 0 then (fs.set path (some (Node.file "")), Except.ok ⟨name⟩)
        else (fs, Except.ok ⟨name⟩)
      | some Node.dir => (fs, Except.error ("open " ++ name ++ ": is a directory"))
      | some (Node.symlink _) =>
        (fs, Except.error ("open " ++ name ++ ": too many levels of symbolic links"))

/-- The function `os.Remove`: the entry at `name` itself is removed, be it a
file, a symbolic link or a directory. -/
def FS.Remove (name : String) (fs : FS) : FS × Option String :=
  match fs.node name with
  | none => (fs, some ("remove " ++ name ++ ": no such file or directory"))
  | some _ =>
    if fs.denied name then (fs, some ("remove " ++ name ++ ": permission denied"))
    else (fs.set name none, none)

/-- The function `os.Symlink`: `newname` is made a symbolic link to
`oldname`, in a directory that is there, unless there is an entry at
`newname` already. -/
def FS.Symlink (oldname newname : String) (fs : FS) : FS × Option String :=
  match fs.node newname with
  | some _ => (fs, some ("symlink " ++ oldname ++ " " ++ newname ++ ": file exists"))
  | none =>
    if fs.parentOK newname = false then
      (fs, some ("symlink " ++ oldname ++ " " ++ newname ++ ": no such file or directory"))
    else if fs.denied newname then
      (fs, some ("symlink " ++ oldname ++ " " ++ newname ++ ": permission denied"))
    else (fs.set newname (some (Node.symlink oldname)), none)

/-- The entry a path leads to, symbolic links followed, as `os.Stat` sees
it. -/
def FS.stat (fs : FS) (path : String) : Option Node :=
  (fs.follow maxLinks path).bind fs.node

/-- The file system as an operating system, with `join` for
`filepath.Join`. -/
def posix (join : String → String → String) : OS FS File where
  Join := join
  MkdirAll := FS.MkdirAll
  OpenFile := FS.OpenFile
  Remove := FS.Remove
  Symlink := FS.Symlink

/-- The function `filepath.Join` on Unix where it has nothing to clean: for
a clean directory other than the root and a name that is one path element,
the two joined by a separator. -/
def pathJoin (dir name : String) : String :=
  dir ++ "/" ++ name

/-- The elements of a path: what stands between its separators. -/
def splitSlash : List Char → List (List Char)
  | [] => [[]]
  | c :: cs =>
    if c = '/' then [] :: splitSlash cs
    else
      match splitSlash cs with
      | [] => [[c]]
      | x :: xs => (c :: x) :: xs

/-- One element taken in by `filepath.Clean`, the elements kept so far
innermost first: an empty element and `.` are dropped, `..` removes the
element before it, is dropped at the root, and is kept where nothing but
`..` is before it. -/
def cleanStep (rooted : Bool) (out : List (List Char)) (e : List Char) : List (List Char) :=
  if e = [] ∨ e = ['.'] then out
  else if e = ['.', '.'] then
    match out with
    | [] => if rooted then [] else [e]
    | top :: rest => if top = ['.', '.'] then e :: out else rest
  else e :: out

/-- The function `filepath.Clean` on Unix: the shortest path equal to `path`
by purely lexical processing. -/
def filepathClean (path : String) : String :=
  if path = "" then "."
  else
    let rooted := decide (path.data.head? = some '/')
    let out := (splitSlash path.data).foldl (cleanStep rooted) []
    let body := String.intercalate "/" (out.reverse.map String.mk)
    if rooted then "/" ++ body else if body = "" then "." else body

/-- The function `filepath.Join` on Unix for two elements: empty elements
are ignored and the result is cleaned. -/
def filepathJoin (dir name : String) : String :=
  if dir = "" then (if name = "" then "" else filepathClean name)
  else filepathClean (dir ++ "/" ++ name)

/-- The file system with no entry yet and nothing refused. -/
def FS.empty : FS :=
  { node := fun _ => none, denied := fun _ => false }

/-- A file system in which the path of the symlink for the tag `A` under
`log` is taken by a file that cannot be removed. -/
def FS.occupied : FS :=
  { node := fun q => if q = "log/prog.A" then some (Node.file "keep") else none
    denied := fun q => decide (q = "log/prog.A") }

/-- Two calls of `create` into the same directory, the second in the state
the first one left: the results of both. -/
def createTwice {σ φ : Type} (os : OS σ φ) (LogDir : String) (st : Identity)
    (tag₁ : String) (t₁ : Time) (tag₂ : String) (t₂ : Time) (w : σ) :
    Created σ φ × Created σ φ :=
  (create os LogDir st tag₁ t₁ w,
    create os LogDir st tag₂ t₂ (create os LogDir st tag₁ t₁ w).world)

/-- A file system in which the symlink for the tag `A` under `log` points
at an older log file. -/
def FS.stale : FS :=
  { node := fun q =>
      if q = "log" then some Node.dir
      else if q = "log/prog.host.user.log.A.20240101-000000.4242" then some (Node.file "old")
      else if q = "log/prog.A" then some (Node.symlink "prog.host.user.log.A.20240101-000000.4242")
      else none
    denied := fun _ => false }

/-- A file system in which the log file for the tag `A` of 9 March 2024,
07:05:01, has been written to already. -/
def FS.written : FS :=
  { node := fun q =>
      if q = "log" then some Node.dir
      else if q = "log/prog.host.user.log.A.20240309-070501.4242" then
        some (Node.file "earlier lines")
      else none
    denied := fun _ => false }

/-- The identity used in the examples. -/
def Identity.sample : Identity :=
  ⟨4242, "prog", "host", "user"⟩

/-- The time used in the examples: 9 March 2024, 07:05:01. -/
def Time.sample : Time :=
  ⟨2024, 3, 9, 7, 5, 1, 0⟩

/-- An identity whose user name holds path separators: with it, and the tag
`20240309-070501.4242` at 07:05:01 on 9 March 2024, the file name and the
symlink name are joined to the same path. -/
def Identity.crossing : Identity :=
  ⟨4242, "u.log.20240309-070501.4242", "host", "x/../u"⟩

/-- A file system in which the log file of `Identity.crossing` for the tag
`20240309-070501.4242` has been written to already. -/
def FS.crossing : FS :=
  { node := fun q =>
      if q = "log" then some Node.dir
      else if q = "log/u.log.20240309-070501.4242.20240309-070501.4242" then
        some (Node.file "earlier lines")
      else none
    denied := fun _ => false }

/-! ## The assumptions about the operating system -/

/-- One element of a path: not empty, not `.` or `..`, and without a
separator. -/
def IsElem (a : String) : Prop :=
  a ≠ "" ∧ a ≠ "." ∧ a ≠ ".." ∧ '/' ∉ a.data

instance (a : String) : Decidable (IsElem a) := by
  unfold IsElem; infer_instance

/-- Program, host, user name and tag hold no separator, and program and tag
are not empty: the file name and the symlink name are then one path element
each. -/
def SingleElements (st : Identity) (tag : String) : Prop :=
  st.program ≠ "" ∧ tag ≠ "" ∧ '/' ∉ st.program.data ∧ '/' ∉ st.host.data ∧
    '/' ∉ st.userName.data ∧ '/' ∉ tag.data

instance (st : Identity) (tag : String) : Decidable (SingleElements st tag) := by
  unfold SingleElements; infer_instance

/-- What is assumed of the operating system about the entries of the
directory `dir`, with `lstat s p` the entry at the path `p` itself in the
state `s`: two different elements are joined to two different paths; making
`dir`, and removing or linking one element, leave the entry of another as it
is; a successful open leaves an entry, keeps a file as it is when `O_TRUNC`
is not set, and under `O_CREATE` makes an empty file where no entry was; a
successful symlink call leaves a link to the target it was given. -/
structure Lawful {σ φ : Type} (os : OS σ φ) (lstat : σ → String → Option Node) (dir : String) :
    Prop where
  join_inj : ∀ a b, IsElem a → IsElem b → os.Join dir a = os.Join dir b → a = b
  mkdir_other : ∀ perm a s, IsElem a →
    lstat (os.MkdirAll dir perm s).1 (os.Join dir a) = lstat s (os.Join dir a)
  open_made : ∀ a flag perm s f, IsElem a →
    (os.OpenFile (os.Join dir a) flag perm s).2 = Except.ok f →
    (lstat (os.OpenFile (os.Join dir a) flag perm s).1 (os.Join dir a)).isSome = true
  open_kept : ∀ a flag perm s data, IsElem a → flag &&& O_TRUNC = 0 →
    lstat s (os.Join dir a) = some (Node.file data) →
    lstat (os.OpenFile (os.Join dir a) flag perm s).1 (os.Join dir a) = some (Node.file data)
  open_created : ∀ a flag perm s f, IsElem a → flag &&& O_CREATE ≠ 0 →
    lstat s (os.Join dir a) = none →
    (os.OpenFile (os.Join dir a) flag perm s).2 = Except.ok f →
    lstat (os.OpenFile (os.Join dir a) flag perm s).1 (os.Join dir a) = some (Node.file "")
  remove_other : ∀ a b s, IsElem a → IsElem b → a ≠ b →
    lstat (os.Remove (os.Join dir a) s).1 (os.Join dir b) = lstat s (os.Join dir b)
  symlink_other : ∀ o a b s, IsElem a → IsElem b → a ≠ b →
    lstat (os.Symlink o (os.Join dir a) s).1 (os.Join dir b) = lstat s (os.Join dir b)
  symlink_made : ∀ o a s, IsElem a → (os.Symlink o (os.Join dir a) s).2 = none →
    lstat (os.Symlink o (os.Join dir a) s).1 (os.Join dir a) = some (Node.symlink o)

/-- The state in which `create` calls `os.Remove`: after `os.MkdirAll` and
`os.OpenFile`. -/
def afterOpen {σ φ : Type} (os : OS σ φ) (LogDir : String) (st : Identity) (tag : String)
    (t : Time) (w : σ) : σ :=
  (os.OpenFile (os.Join LogDir (logName st tag t).1) (O_RDWR ||| O_CREATE) 0o666
    (os.MkdirAll LogDir ModePerm w).1).1

/-- The state in which `create` calls `os.Symlink`: after `os.Remove`. -/
def afterRemove {σ φ : Type} (os : OS σ φ) (LogDir : String) (st : Identity) (tag : String)
    (t : Time) (w : σ) : σ :=
  (os.Remove (os.Join LogDir (logName st tag t).2) (afterOpen os LogDir st tag t w)).1

/-! ## Notions the statements are phrased in -/

/-- The operating systems Go's `os.IsPathSeparator` tells apart. -/
inductive GOOS where
  | unix
  | windows
  deriving DecidableEq, Repr

/-- The function `os.IsPathSeparator`: `/` on Unix, `\` and `/` on
Windows. -/
def IsPathSeparator : GOOS → Char → Bool
  | GOOS.unix, c => c = '/'
  | GOOS.windows, c => c = '\\' || c = '/'

/-- The decimal numeral of an integer, as Lean prints it. -/
def decimal (i : Int) : String :=
  toString i

/-- The decimal numeral of a natural number, zero-padded on the left to at
least `w` digits. -/
def zeroPadded (w : Nat) (n : Nat) : String :=
  String.mk (List.replicate (w - (toString n).length) '0') ++ toString n

/-- The decimal numeral of an integer with its digits zero-padded on the
left to at least `w` digits, after the sign if there is one. -/
def zeroPaddedInt (w : Nat) (i : Int) : String :=
  if i < 0 then "-" ++ zeroPadded w i.natAbs else zeroPadded w i.natAbs

/-- The year as `logName` writes it: zero-padded to at least four digits
when it is not negative, and otherwise a minus sign and the digits
zero-padded to at least three. -/
def yearNumeral (y : Int) : String :=
  if y < 0 then "-" ++ zeroPadded 3 y.natAbs else zeroPadded 4 y.natAbs

/-- Go's comparison `a <= b` of two strings: lexicographic, character by
character, a proper prefix being the smaller. -/
def stringLe : List Char → List Char → Bool
  | [], _ => true
  | _ :: _, [] => false
  | a :: as, b :: bs =>
    if a.toNat < b.toNat then true
    else if b.toNat < a.toNat then false
    else stringLe as bs

/-- Chronological order of two times down to the second: `t1` is not after
`t2`. -/
def Time.notAfter (t1 t2 : Time) : Prop :=
  t1.year < t2.year ∨ (t1.year = t2.year ∧
    (t1.month < t2.month ∨ (t1.month = t2.month ∧
      (t1.day < t2.day ∨ (t1.day = t2.day ∧
        (t1.hour < t2.hour ∨ (t1.hour = t2.hour ∧
          (t1.minute < t2.minute ∨ (t1.minute = t2.minute ∧ t1.second ≤ t2.second)))))))))

instance (t1 t2 : Time) : Decidable (t1.notAfter t2) := by
  unfold Time.notAfter; infer_instance

/-- Two times agree down to the second. -/
def Time.sameSecond (t1 t2 : Time) : Prop :=
  t1.year = t2.year ∧ t1.month = t2.month ∧ t1.day = t2.day ∧
    t1.hour = t2.hour ∧ t1.minute = t2.minute ∧ t1.second = t2.second

instance (t1 t2 : Time) : Decidable (t1.sameSecond t2) := by
  unfold Time.sameSecond; infer_instance

/-! ## Auxiliary functions of the proofs -/

/-- The digit character of `k`, a number below ten. -/
def digit (k : Nat) : Char :=
  Char.ofNat (48 + k)

/-- A character that is one of the ten digits. -/
def IsDigit (c : Char) : Prop :=
  ∃ k, k < 10 ∧ c = digit k

/-- The decimal digits of `u`, as `fmtInteger` produces them. -/
def decDigits (u : Nat) : List Char :=
  fmtDigits u u []

/-- The digits of `u` padded with zeros on the left to the width `w`. -/
def zeroPad (w u : Nat) : List Char :=
  List.replicate (w - (decDigits u).length) '0' ++ decDigits u

/-- The last `w` decimal digits of `u`. -/
def fixedDigits : Nat → Nat → List Char
  | 0, _ => []
  | w + 1, u => fixedDigits w (u / 10) ++ [digit (u % 10)]

/-- The number a list of digit characters stands for. -/
def parseDigits (l : List Char) : Nat :=
  l.foldl (fun a c => a * 10 + (c.toNat - 48)) 0

/-- The time stamp field of a log file name. -/
def stampField (t : Time) : List Char :=
  fmtInteger true (some 4) t.year ++ (fmtInteger true (some 2) t.month ++
    (fmtInteger true (some 2) t.day ++ ('-' :: (fmtInteger true (some 2) t.hour ++
      (fmtInteger true (some 2) t.minute ++ fmtInteger true (some 2) t.second)))))

end LogFile

namespace LogFile

/-! ## Decimal digits -/

theorem digit_toNat {k : Nat} (h : k < 10) : (digit k).toNat = 48 + k := by
  interval_cases k <;> rfl

theorem fmtDigits_fuel (fuel₁ : Nat) : ∀ (fuel₂ u : Nat) (buf : List Char), u ≤ fuel₁ → u ≤ fuel₂ →
    fmtDigits fuel₁ u buf = fmtDigits fuel₂ u buf := by
  induction fuel₁ with
  | zero =>
    intro fuel₂ u buf h₁ _
    have hu : u = 0 := by omega
    subst hu
    cases fuel₂ <;> simp [fmtDigits]
  | succ n ih =>
    intro fuel₂ u buf h₁ h₂
    cases fuel₂ with
    | zero =>
      have hu : u = 0 := by omega
      subst hu
      simp [fmtDigits]
    | succ m =>
      simp only [fmtDigits]
      split
      · exact ih m (u / 10) _ (by omega) (by omega)
      · rfl

theorem fmtDigits_buf (fuel : Nat) : ∀ (u : Nat) (buf : List Char),
    fmtDigits fuel u buf = fmtDigits fuel u [] ++ buf := by
  induction fuel with
  | zero => intro u buf; simp [fmtDigits]
  | succ n ih =>
    intro u buf
    simp only [fmtDigits]
    split
    · rw [ih (u / 10) (_ :: buf), ih (u / 10) [_]]; simp
    · simp

theorem decDigits_lt {u : Nat} (h : u < 10) : decDigits u = [digit u] := by
  unfold decDigits digit
  cases u with
  | zero => simp [fmtDigits]
  | succ n => simp only [fmtDigits]; rw [if_neg (by omega)]

theorem decDigits_ge {u : Nat} (h : 10 ≤ u) :
    decDigits u = decDigits (u / 10) ++ [digit (u % 10)] := by
  unfold decDigits digit
  cases u with
  | zero => omega
  | succ n =>
    simp only [fmtDigits]
    rw [if_pos h, fmtDigits_buf, fmtDigits_fuel n ((n + 1) / 10) ((n + 1) / 10) [] (by omega) (le_refl _)]
    have : n + 1 - (n + 1) / 10 * 10 = (n + 1) % 10 := by omega
    rw [this]

theorem decDigits_isDigit (u : Nat) : ∀ c ∈ decDigits u, IsDigit c := by
  induction u using Nat.strong_induction_on with
  | _ u ih =>
    intro c hc
    by_cases h : u < 10
    · rw [decDigits_lt h] at hc
      exact ⟨u, h, by simpa using hc⟩
    · rw [decDigits_ge (by omega)] at hc
      rcases List.mem_append.mp hc with hc | hc
      · exact ih (u / 10) (by omega) c hc
      · exact ⟨u % 10, by omega, by simpa using hc⟩

theorem decDigits_ne_nil (u : Nat) : decDigits u ≠ [] := by
  by_cases h : u < 10
  · rw [decDigits_lt h]; simp
  · rw [decDigits_ge (by omega)]; simp

theorem parseDigits_append_singleton (l : List Char) (c : Char) :
    parseDigits (l ++ [c]) = parseDigits l * 10 + (c.toNat - 48) := by
  simp [parseDigits, List.foldl_append]

theorem parseDigits_decDigits (u : Nat) : parseDigits (decDigits u) = u := by
  induction u using Nat.strong_induction_on with
  | _ u ih =>
    by_cases h : u < 10
    · rw [decDigits_lt h]
      simp [parseDigits, digit_toNat h]
    · rw [decDigits_ge (by omega), parseDigits_append_singleton, ih (u / 10) (by omega),
        digit_toNat (by omega : u % 10 < 10)]
      omega

theorem parseDigits_zeros (k : Nat) (l : List Char) :
    parseDigits (List.replicate k '0' ++ l) = parseDigits l := by
  induction k with
  | zero => simp
  | succ n ih =>
    have h0 : ∀ m : List Char, parseDigits ('0' :: m) = parseDigits m := by
      intro m; simp [parseDigits]
    rw [List.replicate_succ, List.cons_append, h0, ih]

theorem parseDigits_zeroPad (w u : Nat) : parseDigits (zeroPad w u) = u := by
  rw [zeroPad, parseDigits_zeros, parseDigits_decDigits]

theorem zeroPad_inj {w u v : Nat} (h : zeroPad w u = zeroPad w v) : u = v := by
  have := congrArg parseDigits h
  rwa [parseDigits_zeroPad, parseDigits_zeroPad] at this

theorem decDigits_inj {u v : Nat} (h : decDigits u = decDigits v) : u = v := by
  have := congrArg parseDigits h
  rwa [parseDigits_decDigits, parseDigits_decDigits] at this

theorem zeroPad_isDigit (w u : Nat) : ∀ c ∈ zeroPad w u, IsDigit c := by
  intro c hc
  rcases List.mem_append.mp hc with hc | hc
  · exact ⟨0, by omega, (List.eq_of_mem_replicate hc).trans rfl⟩
  · exact decDigits_isDigit u c hc

theorem length_zeroPad_ge (w u : Nat) : w ≤ (zeroPad w u).length := by
  simp only [zeroPad, List.length_append, List.length_replicate]
  omega

theorem zeroPad_ne_nil (w u : Nat) : zeroPad w u ≠ [] := by
  simp [zeroPad, decDigits_ne_nil]

theorem length_fixedDigits (w : Nat) : ∀ u, (fixedDigits w u).length = w := by
  induction w with
  | zero => intro u; rfl
  | succ n ih => intro u; simp [fixedDigits, ih]

theorem fixedDigits_zero (w : Nat) : fixedDigits w 0 = List.replicate w '0' := by
  induction w with
  | zero => rfl
  | succ n ih =>
    simp only [fixedDigits, Nat.zero_div, Nat.zero_mod, ih]
    exact (List.replicate_succ' n '0').symm

theorem length_decDigits_le (w : Nat) : ∀ u, u < 10 ^ (w + 1) → (decDigits u).length ≤ w + 1 := by
  induction w with
  | zero =>
    intro u hu
    rw [decDigits_lt (by simpa using hu)]; simp
  | succ n ih =>
    intro u hu
    by_cases h : u < 10
    · rw [decDigits_lt h]; simp
    · rw [decDigits_ge (by omega)]
      have : u / 10 < 10 ^ (n + 1) := by
        rw [Nat.div_lt_iff_lt_mul (by omega)]
        rwa [pow_succ] at hu
      have := ih (u / 10) this
      simp only [List.length_append, List.length_singleton]
      omega

theorem zeroPad_eq_fixedDigits (w : Nat) :
    ∀ u, u < 10 ^ (w + 1) → zeroPad (w + 1) u = fixedDigits (w + 1) u := by
  induction w with
  | zero =>
    intro u hu
    have hu : u < 10 := by simpa using hu
    simp [zeroPad, fixedDigits, decDigits_lt hu, Nat.mod_eq_of_lt hu]
  | succ n ih =>
    intro u hu
    by_cases h : u < 10
    · have hd : u / 10 = 0 := by omega
      rw [fixedDigits, hd, fixedDigits_zero, Nat.mod_eq_of_lt h, zeroPad, decDigits_lt h]
      simp
    · have hlt : u / 10 < 10 ^ (n + 1) := by
        rw [Nat.div_lt_iff_lt_mul (by omega)]
        rwa [pow_succ] at hu
      rw [fixedDigits, ← ih (u / 10) hlt, zeroPad, zeroPad, decDigits_ge (by omega)]
      simp only [List.length_append, List.length_singleton, List.append_assoc]
      congr 2
      omega

theorem length_zeroPad {w u : Nat} (h : u < 10 ^ (w + 1)) : (zeroPad (w + 1) u).length = w + 1 := by
  rw [zeroPad_eq_fixedDigits w u h, length_fixedDigits]

/-! ## `fmtInteger` and the shape of a log file name -/

theorem fmtInteger_nonneg (w : Nat) {v : Int} (h : 0 ≤ v) :
    fmtInteger true (some w) v = zeroPad w v.natAbs := by
  have hl := length_zeroPad_ge w v.natAbs
  have hn : ¬ v < 0 := by omega
  simp only [fmtInteger, hn, decide_False, Bool.false_eq_true, if_false, Option.getD_some]
  change List.replicate (w - (zeroPad w v.natAbs).length) ' ' ++ zeroPad w v.natAbs = _
  rw [Nat.sub_eq_zero_of_le hl]; rfl

theorem fmtInteger_natCast (w n : Nat) : fmtInteger true (some w) (n : Int) = zeroPad w n := by
  rw [fmtInteger_nonneg w (by omega)]; rfl

theorem fmtInteger_neg (w : Nat) {v : Int} (h : v < 0) :
    fmtInteger true (some (w + 1)) v = '-' :: zeroPad w v.natAbs := by
  have hl := length_zeroPad_ge w v.natAbs
  simp only [fmtInteger, h, decide_True, if_true, Option.getD_some, Nat.add_sub_cancel]
  change List.replicate (w + 1 - ('-' :: zeroPad w v.natAbs).length) ' ' ++ _ = _
  rw [Nat.sub_eq_zero_of_le (by simp only [List.length_cons]; omega)]; rfl

theorem fmtInteger_plain (v : Int) :
    fmtInteger false none v = if v < 0 then '-' :: decDigits v.natAbs else decDigits v.natAbs := by
  by_cases h : v < 0 <;> simp [fmtInteger, h, decDigits]

theorem logName_data (st : Identity) (tag : String) (t : Time) :
    (logName st tag t).1.data = st.program.data ++ ('.' :: (st.host.data ++ ('.' ::
      (st.userName.data ++ ('.' :: 'l' :: 'o' :: 'g' :: '.' :: (tag.data ++ ('.' ::
        (stampField t ++ ('.' :: fmtInteger false none st.pid))))))))) := by
  simp [logName, Sprintf, doPrintf, printArg, fmtS, stampField, Char.isDigit]

/-! ## Agreement with Lean's decimal numerals -/

theorem digitChar_eq_digit {k : Nat} (h : k < 10) : Nat.digitChar k = digit k := by
  interval_cases k <;> rfl

theorem toDigitsCore_eq (fuel : Nat) : ∀ (n : Nat) (ds : List Char), n < fuel →
    Nat.toDigitsCore 10 fuel n ds = decDigits n ++ ds := by
  induction fuel with
  | zero => intro n ds h; omega
  | succ m ih =>
    intro n ds h
    simp only [Nat.toDigitsCore]
    by_cases h0 : n / 10 = 0
    · have hn : n < 10 := by omega
      rw [if_pos h0, decDigits_lt hn, Nat.mod_eq_of_lt hn, digitChar_eq_digit hn]; rfl
    · rw [if_neg h0, ih (n / 10) _ (by omega), decDigits_ge (by omega : 10 ≤ n),
        digitChar_eq_digit (by omega : n % 10 < 10)]
      simp

theorem toString_nat_data (n : Nat) : (toString n).data = decDigits n := by
  change (Nat.toDigits 10 n).asString.data = _
  rw [Nat.toDigits, toDigitsCore_eq (n + 1) n [] (by omega), List.append_nil]; rfl

theorem zeroPadded_data (w n : Nat) : (zeroPadded w n).data = zeroPad w n := by
  have hl : (toString n).length = (decDigits n).length := by
    rw [← toString_nat_data]; rfl
  unfold zeroPadded zeroPad
  rw [String.data_append, toString_nat_data, hl]

theorem decimal_data (i : Int) : (decimal i).data = fmtInteger false none i := by
  rw [fmtInteger_plain]
  cases i with
  | ofNat m =>
    have : ¬ Int.ofNat m < 0 := by simp
    rw [if_neg this]
    exact toString_nat_data m
  | negSucc m =>
    have : Int.negSucc m < 0 := Int.negSucc_lt_zero m
    rw [if_pos this]
    change ("-" ++ toString (m + 1)).data = _
    simp [toString_nat_data]

theorem yearNumeral_data (y : Int) : (yearNumeral y).data = fmtInteger true (some 4) y := by
  unfold yearNumeral
  by_cases h : y < 0
  · rw [if_pos h, fmtInteger_neg 3 h]; simp [zeroPadded_data]
  · rw [if_neg h, fmtInteger_nonneg 4 (by omega), zeroPadded_data]

theorem stampField_eq (t : Time) :
    stampField t = (yearNumeral t.year ++ zeroPadded 2 t.month ++ zeroPadded 2 t.day ++ "-" ++
      zeroPadded 2 t.hour ++ zeroPadded 2 t.minute ++ zeroPadded 2 t.second).data := by
  simp [stampField, yearNumeral_data, zeroPadded_data, fmtInteger_natCast]

theorem logName_eq (st : Identity) (tag : String) (t : Time) :
    (logName st tag t).1 = st.program ++ "." ++ st.host ++ "." ++ st.userName ++ ".log." ++ tag ++
      "." ++ (yearNumeral t.year ++ zeroPadded 2 t.month ++ zeroPadded 2 t.day ++ "-" ++
        zeroPadded 2 t.hour ++ zeroPadded 2 t.minute ++ zeroPadded 2 t.second) ++
      "." ++ decimal st.pid := by
  apply String.ext
  rw [logName_data, stampField_eq]
  simp [decimal_data]

/-! ## C1: the format of the two names -/

/-- C1 (as amended): for every tag and timestamp, `logName` returns the file
name `program.host.userName.log.tag.YYYYMMDD-HHMMSS.pid`, where month, day,
hour, minute and second are zero-padded to two digits, the process id is its
decimal numeral, and the year is zero-padded to at least four digits when it
is not negative and is a minus sign followed by at least three digits when it
is negative; the symlink name is `program.tag`; the file name contains
`.tag.` and ends with `.` and the decimal process id. -/
theorem logName_format (st : Identity) (tag : String) (t : Time) :
    (logName st tag t).1 = st.program ++ "." ++ st.host ++ "." ++ st.userName ++ ".log." ++ tag ++
        "." ++ (yearNumeral t.year ++ zeroPadded 2 t.month ++ zeroPadded 2 t.day ++ "-" ++
          zeroPadded 2 t.hour ++ zeroPadded 2 t.minute ++ zeroPadded 2 t.second) ++
        "." ++ decimal st.pid ∧
      (logName st tag t).2 = st.program ++ "." ++ tag ∧
      (∃ a b : String, (logName st tag t).1 = a ++ ("." ++ tag ++ ".") ++ b) ∧
      (∃ a : String, (logName st tag t).1 = a ++ ("." ++ decimal st.pid)) := by
  refine ⟨logName_eq st tag t, rfl,
    ⟨st.program ++ "." ++ st.host ++ "." ++ st.userName ++ ".log",
      yearNumeral t.year ++ zeroPadded 2 t.month ++ zeroPadded 2 t.day ++ "-" ++
        zeroPadded 2 t.hour ++ zeroPadded 2 t.minute ++ zeroPadded 2 t.second ++
        "." ++ decimal st.pid, ?_⟩,
    ⟨st.program ++ "." ++ st.host ++ "." ++ st.userName ++ ".log." ++ tag ++
        "." ++ (yearNumeral t.year ++ zeroPadded 2 t.month ++ zeroPadded 2 t.day ++ "-" ++
          zeroPadded 2 t.hour ++ zeroPadded 2 t.minute ++ zeroPadded 2 t.second), ?_⟩⟩
  · rw [logName_eq]
    apply String.ext
    simp
  · rw [logName_eq]
    apply String.ext
    simp

/-- C1, refuted as stated: in the year -5 the year field of the file name is
`-005`, a sign and three digits, and not the year zero-padded to four
digits. -/
theorem negative_year_breaks_format :
    (logName ⟨4242, "prog", "host", "user"⟩ "INFO" ⟨-5, 3, 9, 7, 5, 1, 0⟩).1 =
        "prog.host.user.log.INFO.-0050309-070501.4242" ∧
      (logName ⟨4242, "prog", "host", "user"⟩ "INFO" ⟨-5, 3, 9, 7, 5, 1, 0⟩).1 ≠
        "prog" ++ "." ++ "host" ++ "." ++ "user" ++ ".log." ++ "INFO" ++ "." ++
          (zeroPaddedInt 4 (-5) ++ zeroPadded 2 3 ++ zeroPadded 2 9 ++ "-" ++
            zeroPadded 2 7 ++ zeroPadded 2 5 ++ zeroPadded 2 1) ++ "." ++ decimal 4242 := by
  decide

/-! ## C2: `shortHostname` -/

theorem indexFrom_dot_absent (l : List Char) : ∀ i : Nat, '.' ∉ l → indexFrom ['.'] l i = -1 := by
  induction l with
  | nil => intro i _; simp [indexFrom]
  | cons c cs ih =>
    intro i h
    have hc : ¬ c = '.' := fun e => h (by simp [e])
    have hcs : '.' ∉ cs := fun e => h (List.mem_cons_of_mem _ e)
    have hb : ('.' == c) = false := by simpa using fun e : '.' = c => hc e.symm
    simp [indexFrom, List.isPrefixOf, hb, ih (i + 1) hcs]

theorem indexFrom_dot_first (a b : List Char) : ∀ i : Nat, '.' ∉ a →
    indexFrom ['.'] (a ++ '.' :: b) i = ((i + a.length : Nat) : Int) := by
  induction a with
  | nil => intro i _; simp [indexFrom, List.isPrefixOf]
  | cons c cs ih =>
    intro i h
    have hc : ¬ c = '.' := fun e => h (by simp [e])
    have hcs : '.' ∉ cs := fun e => h (List.mem_cons_of_mem _ e)
    have hb : ('.' == c) = false := by simpa using fun e : '.' = c => hc e.symm
    rw [List.cons_append, indexFrom, List.isPrefixOf, hb]
    simp only [Bool.false_and, Bool.false_eq_true, if_false]
    rw [ih (i + 1) hcs, List.length_cons]
    congr 1; omega

theorem shortHostname_of_absent {h : String} (hd : '.' ∉ h.data) : shortHostname h = h := by
  have : stringsIndex h "." = -1 := indexFrom_dot_absent h.data 0 hd
  simp [shortHostname, this]

theorem shortHostname_of_split {h : String} {a b : List Char} (hs : h.data = a ++ '.' :: b)
    (ha : '.' ∉ a) : shortHostname h = String.mk a := by
  have hi : stringsIndex h "." = ((0 + a.length : Nat) : Int) := by
    unfold stringsIndex
    rw [hs]
    exact indexFrom_dot_first a b 0 ha
  simp [shortHostname, hi, hs]

/-- C2: `shortHostname h` is `h` truncated at the first period: it never
contains a period, it is `h` itself when `h` contains none, and otherwise `h`
is the result followed by a period and a rest; `localhost`, `a.b.c` and
`www.google.com` give `localhost`, `a` and `www`. -/
theorem shortHostname_truncates (h : String) :
    '.' ∉ (shortHostname h).data ∧
      ((shortHostname h = h ∧ '.' ∉ h.data) ∨
        ('.' ∈ h.data ∧ ∃ rest : String, h = shortHostname h ++ "." ++ rest)) ∧
      shortHostname "localhost" = "localhost" ∧ shortHostname "a.b.c" = "a" ∧
      shortHostname "www.google.com" = "www" := by
  refine ⟨?_, ?_, by decide, by decide, by decide⟩
  · by_cases hd : '.' ∈ h.data
    · obtain ⟨a, b, hs, ha⟩ := List.eq_append_cons_of_mem hd
      rw [shortHostname_of_split hs ha]
      exact ha
    · rw [shortHostname_of_absent hd]
      exact hd
  · by_cases hd : '.' ∈ h.data
    · obtain ⟨a, b, hs, ha⟩ := List.eq_append_cons_of_mem hd
      refine Or.inr ⟨hd, String.mk b, ?_⟩
      rw [shortHostname_of_split hs ha]
      apply String.ext
      simp [hs]
    · exact Or.inl ⟨shortHostname_of_absent hd, hd⟩

/-! ## C5: the user name kept by `init` -/

theorem replaceFrom_backslash (l : List Char) :
    replaceFrom ['\\'] ['_'] l 0 none = l.map fun c => if c = '\\' then '_' else c := by
  induction l with
  | nil => rfl
  | cons c cs ih =>
    by_cases hc : c = '\\'
    · subst hc
      simp [replaceFrom, List.isPrefixOf, ih]
    · have hb : ('\\' == c) = false := by simpa using fun e : '\\' = c => hc e.symm
      simp [replaceFrom, List.isPrefixOf, hb, hc, ih]

theorem stringsReplace_backslash (s : String) :
    stringsReplace s "\\" "_" (-1) = String.mk (s.data.map fun c => if c = '\\' then '_' else c) := by
  have h1 : ¬ (("\\" : String) = "_" ∨ (-1 : Int) = 0) := by decide
  have h2 : ¬ ("\\" : String).data = [] := by decide
  have h3 : ((-1 : Int) < 0) := by decide
  simp only [stringsReplace, h1, h2, h3, if_true, if_false]
  exact congrArg String.mk (replaceFrom_backslash s.data)

/-- C5 (as amended): for every raw user name, `init` stores it with every
backslash replaced by `_` and every other character, `/` included, as it
was, so the stored `userName` contains no backslash. -/
theorem init_userName_sanitized (st : Identity) (hostname : Option String) (raw : String) :
    (init st hostname (some raw)).userName =
        String.mk (raw.data.map fun c => if c = '\\' then '_' else c) ∧
      '\\' ∉ (init st hostname (some raw)).userName.data := by
  have h : (init st hostname (some raw)).userName = stringsReplace raw "\\" "_" (-1) := by
    cases hostname <;> rfl
  rw [h, stringsReplace_backslash]
  refine ⟨rfl, ?_⟩
  simp only [List.mem_map, not_exists, not_and]
  intro c _ hc
  by_cases hb : c = '\\'
  · rw [if_pos hb] at hc; exact absurd hc (by decide)
  · rw [if_neg hb] at hc; exact hb hc

/-- C5, refuted as stated: `/` is a path separator on Unix and on Windows,
and the raw user name `a/b` is stored as it is. -/
theorem init_userName_keeps_slash :
    IsPathSeparator GOOS.unix '/' = true ∧ IsPathSeparator GOOS.windows '/' = true ∧
      (init (initialIdentity 4242 "prog") (some "host") (some "a/b")).userName = "a/b" ∧
      '/' ∈ (init (initialIdentity 4242 "prog") (some "host") (some "a/b")).userName.data := by
  decide

/-! ## C3 and C4: the error paths of `create` -/

/-- C3: with an empty `LogDir`, `create` returns the error `log: no log
dirs` with a nil file and an empty path, leaves the world as it was, and
makes no call into `os`: the record of calls stays empty. -/
theorem create_empty_LogDir {σ φ : Type} (os : OS σ φ) (st : Identity) (tag : String) (t : Time)
    (w : σ) :
    (create os "" st tag t w).err = some "log: no log dirs" ∧
      (create os "" st tag t w).f = none ∧
      (create os "" st tag t w).filename = "" ∧
      (create os "" st tag t w).world = w ∧
      (create os.recording "" st tag t (w, [])).world = (w, []) := by
  simp [create]

/-- C4: for a non-empty `LogDir`, whenever `os.MkdirAll` and `os.OpenFile`
succeed, `create` returns a nil error, the opened handle and the path
`filepath.Join(LogDir, name)`, whatever `os.Remove` and `os.Symlink` do. -/
theorem create_ignores_symlink_errors {σ φ : Type} (os : OS σ φ) (LogDir : String)
    (st : Identity) (tag : String) (t : Time) (w : σ) (f : φ) (hdir : LogDir ≠ "")
    (hmk : (os.MkdirAll LogDir ModePerm w).2 = none)
    (hopen : (os.OpenFile (os.Join LogDir (logName st tag t).1) (O_RDWR ||| O_CREATE) 0o666
      (os.MkdirAll LogDir ModePerm w).1).2 = Except.ok f) :
    (create os LogDir st tag t w).err = none ∧
      (create os LogDir st tag t w).f = some f ∧
      (create os LogDir st tag t w).filename = os.Join LogDir (logName st tag t).1 := by
  have h1 : os.MkdirAll LogDir ModePerm w = ((os.MkdirAll LogDir ModePerm w).1, none) :=
    Prod.ext rfl hmk
  have h2 : os.OpenFile (os.Join LogDir (logName st tag t).1) (O_RDWR ||| O_CREATE) 0o666
      (os.MkdirAll LogDir ModePerm w).1 =
      ((os.OpenFile (os.Join LogDir (logName st tag t).1) (O_RDWR ||| O_CREATE) 0o666
        (os.MkdirAll LogDir ModePerm w).1).1, Except.ok f) := Prod.ext rfl hopen
  unfold create
  rw [if_neg hdir, h1]
  simp only
  rw [h2]
  simp

/-- C4 at a concrete input: the symlink path `log/prog.A` is taken by a file
that cannot be removed, so `os.Remove` and `os.Symlink` both fail, and
`create` succeeds all the same. -/
theorem create_ignores_symlink_errors_witness :
    (FS.Remove "log/prog.A" FS.occupied).2 ≠ none ∧
      (FS.Symlink "x" "log/prog.A" FS.occupied).2 ≠ none ∧
      (create (posix pathJoin) "log" ⟨4242, "prog", "host", "user"⟩ "A"
        ⟨2024, 3, 9, 7, 5, 1, 0⟩ FS.occupied).err = none ∧
      (create (posix pathJoin) "log" ⟨4242, "prog", "host", "user"⟩ "A"
        ⟨2024, 3, 9, 7, 5, 1, 0⟩ FS.occupied).f =
          some ⟨"log/prog.host.user.log.A.20240309-070501.4242"⟩ ∧
      (create (posix pathJoin) "log" ⟨4242, "prog", "host", "user"⟩ "A"
        ⟨2024, 3, 9, 7, 5, 1, 0⟩ FS.occupied).filename =
          (posix pathJoin).Join "log"
            (logName ⟨4242, "prog", "host", "user"⟩ "A" ⟨2024, 3, 9, 7, 5, 1, 0⟩).1 :=
  ⟨by decide, by decide,
    create_ignores_symlink_errors (posix pathJoin) "log" ⟨4242, "prog", "host", "user"⟩ "A"
      ⟨2024, 3, 9, 7, 5, 1, 0⟩ FS.occupied ⟨"log/prog.host.user.log.A.20240309-070501.4242"⟩
      (by decide) (by decide) rfl⟩

/-! ## C6: the file name determines tag, second and process -/

theorem IsDigit.ne_dot {c : Char} (h : IsDigit c) : c ≠ '.' := by
  obtain ⟨k, hk, rfl⟩ := h
  interval_cases k <;> decide

theorem IsDigit.ne_minus {c : Char} (h : IsDigit c) : c ≠ '-' := by
  obtain ⟨k, hk, rfl⟩ := h
  interval_cases k <;> decide

theorem dot_not_mem_zeroPad (w u : Nat) : '.' ∉ zeroPad w u :=
  fun h => (zeroPad_isDigit w u '.' h).ne_dot rfl

theorem minus_not_mem_zeroPad (w u : Nat) : '-' ∉ zeroPad w u :=
  fun h => (zeroPad_isDigit w u '-' h).ne_minus rfl

theorem dot_not_mem_decDigits (u : Nat) : '.' ∉ decDigits u :=
  fun h => (decDigits_isDigit u '.' h).ne_dot rfl

theorem minus_not_mem_decDigits (u : Nat) : '-' ∉ decDigits u :=
  fun h => (decDigits_isDigit u '-' h).ne_minus rfl

theorem dot_not_mem_fmtInteger_plain (v : Int) : '.' ∉ fmtInteger false none v := by
  rw [fmtInteger_plain]
  split
  · intro h
    rcases List.mem_cons.mp h with h | h
    · exact absurd h (by decide)
    · exact dot_not_mem_decDigits _ h
  · exact dot_not_mem_decDigits _

theorem dot_not_mem_fmtInteger_year (v : Int) : '.' ∉ fmtInteger true (some 4) v := by
  by_cases hv : v < 0
  · rw [fmtInteger_neg 3 hv]
    intro h
    rcases List.mem_cons.mp h with h | h
    · exact absurd h (by decide)
    · exact dot_not_mem_zeroPad _ _ h
  · rw [fmtInteger_nonneg 4 (by omega)]
    exact dot_not_mem_zeroPad _ _

theorem stampField_zeroPad (t : Time) :
    stampField t = fmtInteger true (some 4) t.year ++ (zeroPad 2 t.month ++ (zeroPad 2 t.day ++
      ('-' :: (zeroPad 2 t.hour ++ (zeroPad 2 t.minute ++ zeroPad 2 t.second))))) := by
  simp only [stampField, fmtInteger_natCast]

theorem dot_not_mem_stampField (t : Time) : '.' ∉ stampField t := by
  rw [stampField_zeroPad]
  simp only [List.mem_append, List.mem_cons, not_or]
  exact ⟨dot_not_mem_fmtInteger_year _, dot_not_mem_zeroPad _ _, dot_not_mem_zeroPad _ _,
    by decide, dot_not_mem_zeroPad _ _, dot_not_mem_zeroPad _ _, dot_not_mem_zeroPad _ _⟩

theorem split_at_last {c : Char} : ∀ (a₁ a₂ b₁ b₂ : List Char), c ∉ b₁ → c ∉ b₂ →
    a₁ ++ c :: b₁ = a₂ ++ c :: b₂ → a₁ = a₂ ∧ b₁ = b₂ := by
  intro a₁
  induction a₁ with
  | nil =>
    intro a₂ b₁ b₂ h₁ _ h
    cases a₂ with
    | nil => simpa using h
    | cons x a₂ =>
      simp only [List.nil_append, List.cons_append, List.cons.injEq] at h
      exact absurd (h.2 ▸ (by simp : c ∈ a₂ ++ c :: b₂)) h₁
  | cons x a₁ ih =>
    intro a₂ b₁ b₂ h₁ h₂ h
    cases a₂ with
    | nil =>
      simp only [List.nil_append, List.cons_append, List.cons.injEq] at h
      exact absurd (h.2 ▸ (by simp : c ∈ a₁ ++ c :: b₁)) h₂
    | cons y a₂ =>
      simp only [List.cons_append, List.cons.injEq] at h
      obtain ⟨rfl, h⟩ := h
      obtain ⟨rfl, rfl⟩ := ih a₂ b₁ b₂ h₁ h₂ h
      exact ⟨rfl, rfl⟩

theorem fmtInteger_plain_inj {v v' : Int} (h : fmtInteger false none v = fmtInteger false none v') :
    v = v' := by
  rw [fmtInteger_plain, fmtInteger_plain] at h
  by_cases hv : v < 0 <;> by_cases hv' : v' < 0
  · rw [if_pos hv, if_pos hv'] at h
    have := decDigits_inj (List.cons.inj h).2
    omega
  · rw [if_pos hv, if_neg hv'] at h
    exact absurd (h ▸ (by simp : '-' ∈ '-' :: decDigits v.natAbs)) (minus_not_mem_decDigits _)
  · rw [if_neg hv, if_pos hv'] at h
    exact absurd (h ▸ (by simp : '-' ∈ '-' :: decDigits v'.natAbs)) (minus_not_mem_decDigits _)
  · rw [if_neg hv, if_neg hv'] at h
    have := decDigits_inj h
    omega

theorem fmtInteger_year_inj {v v' : Int}
    (h : fmtInteger true (some 4) v = fmtInteger true (some 4) v') : v = v' := by
  by_cases hv : v < 0 <;> by_cases hv' : v' < 0
  · rw [fmtInteger_neg 3 hv, fmtInteger_neg 3 hv'] at h
    have := zeroPad_inj (List.cons.inj h).2
    omega
  · rw [fmtInteger_neg 3 hv, fmtInteger_nonneg 4 (by omega)] at h
    exact absurd (h ▸ (by simp : '-' ∈ '-' :: zeroPad 3 v.natAbs)) (minus_not_mem_zeroPad _ _)
  · rw [fmtInteger_nonneg 4 (by omega), fmtInteger_neg 3 hv'] at h
    exact absurd (h ▸ (by simp : '-' ∈ '-' :: zeroPad 3 v'.natAbs)) (minus_not_mem_zeroPad _ _)
  · rw [fmtInteger_nonneg 4 (by omega), fmtInteger_nonneg 4 (by omega)] at h
    have := zeroPad_inj h
    omega

theorem length_zeroPad_two {u : Nat} (h : u < 100) : (zeroPad 2 u).length = 2 :=
  length_zeroPad (w := 1) (by simpa using h)

theorem stampField_inj {t₁ t₂ : Time} (h₁ : t₁.valid) (h₂ : t₂.valid)
    (h : stampField t₁ = stampField t₂) : t₁.sameSecond t₂ := by
  obtain ⟨_, hm₁, _, hd₁, hh₁, hi₁, hs₁⟩ := h₁
  obtain ⟨_, hm₂, _, hd₂, hh₂, hi₂, hs₂⟩ := h₂
  have lm₁ := length_zeroPad_two (by omega : t₁.month < 100)
  have lm₂ := length_zeroPad_two (by omega : t₂.month < 100)
  have ld₁ := length_zeroPad_two (by omega : t₁.day < 100)
  have ld₂ := length_zeroPad_two (by omega : t₂.day < 100)
  have lh₁ := length_zeroPad_two (by omega : t₁.hour < 100)
  have lh₂ := length_zeroPad_two (by omega : t₂.hour < 100)
  have li₁ := length_zeroPad_two (by omega : t₁.minute < 100)
  have li₂ := length_zeroPad_two (by omega : t₂.minute < 100)
  have ls₁ := length_zeroPad_two (by omega : t₁.second < 100)
  have ls₂ := length_zeroPad_two (by omega : t₂.second < 100)
  rw [stampField_zeroPad, stampField_zeroPad] at h
  obtain ⟨hy, h⟩ := List.append_inj' h (by simp [lm₁, lm₂, ld₁, ld₂, lh₁, lh₂, li₁, li₂, ls₁, ls₂])
  obtain ⟨hm, h⟩ := List.append_inj h (by rw [lm₁, lm₂])
  obtain ⟨hd, h⟩ := List.append_inj h (by rw [ld₁, ld₂])
  obtain ⟨hh, h⟩ := List.append_inj (List.cons.inj h).2 (by rw [lh₁, lh₂])
  obtain ⟨hi, hs⟩ := List.append_inj h (by rw [li₁, li₂])
  exact ⟨fmtInteger_year_inj hy, zeroPad_inj hm, zeroPad_inj hd, zeroPad_inj hh, zeroPad_inj hi,
    zeroPad_inj hs⟩

theorem stampField_congr {t₁ t₂ : Time} (h : t₁.sameSecond t₂) : stampField t₁ = stampField t₂ := by
  obtain ⟨hy, hm, hd, hh, hi, hs⟩ := h
  simp only [stampField, hy, hm, hd, hh, hi, hs]

theorem logName_inj {program host userName : String} {pid₁ pid₂ : Int} {tag₁ tag₂ : String}
    {t₁ t₂ : Time} (h₁ : t₁.valid) (h₂ : t₂.valid)
    (h : (logName ⟨pid₁, program, host, userName⟩ tag₁ t₁).1 =
      (logName ⟨pid₂, program, host, userName⟩ tag₂ t₂).1) :
    tag₁ = tag₂ ∧ pid₁ = pid₂ ∧ t₁.sameSecond t₂ := by
  have hd := congrArg String.data h
  rw [logName_data, logName_data] at hd
  simp only [List.append_cancel_left_eq, List.cons.injEq, true_and] at hd
  have e : ∀ (a s p : List Char), a ++ '.' :: (s ++ '.' :: p) = (a ++ '.' :: s) ++ '.' :: p := by
    intro a s p; simp
  rw [e, e] at hd
  obtain ⟨hd, hp⟩ := split_at_last _ _ _ _ (dot_not_mem_fmtInteger_plain _)
    (dot_not_mem_fmtInteger_plain _) hd
  obtain ⟨ht, hs⟩ := split_at_last _ _ _ _ (dot_not_mem_stampField _)
    (dot_not_mem_stampField _) hd
  exact ⟨String.ext ht, fmtInteger_plain_inj hp, stampField_inj h₁ h₂ hs⟩

/-- C6: for a fixed program, host and user name, two file names made by
`logName` are equal exactly when the tags are equal, the process ids are
equal and the two times agree in year, month, day, hour, minute and second. -/
theorem logName_unique (program host userName : String) (pid₁ pid₂ : Int) (tag₁ tag₂ : String)
    (t₁ t₂ : Time) (h₁ : t₁.valid) (h₂ : t₂.valid) :
    (logName ⟨pid₁, program, host, userName⟩ tag₁ t₁).1 =
        (logName ⟨pid₂, program, host, userName⟩ tag₂ t₂).1 ↔
      tag₁ = tag₂ ∧ pid₁ = pid₂ ∧ t₁.sameSecond t₂ := by
  constructor
  · exact logName_inj h₁ h₂
  · rintro ⟨rfl, rfl, hs⟩
    apply String.ext
    rw [logName_data, logName_data, stampField_congr hs]

/-- C6 at a concrete input: two times in the same second that differ in
their nanoseconds give the same name, and another tag gives another name. -/
theorem logName_unique_witness :
    ((logName ⟨4242, "prog", "host", "user"⟩ "INFO" ⟨2024, 3, 9, 7, 5, 1, 0⟩).1 =
        (logName ⟨4242, "prog", "host", "user"⟩ "INFO" ⟨2024, 3, 9, 7, 5, 1, 999⟩).1 ↔
      "INFO" = "INFO" ∧ (4242 : Int) = 4242 ∧
        Time.sameSecond ⟨2024, 3, 9, 7, 5, 1, 0⟩ ⟨2024, 3, 9, 7, 5, 1, 999⟩) ∧
      (logName ⟨4242, "prog", "host", "user"⟩ "INFO" ⟨2024, 3, 9, 7, 5, 1, 0⟩).1 ≠
        (logName ⟨4242, "prog", "host", "user"⟩ "WARNING" ⟨2024, 3, 9, 7, 5, 1, 0⟩).1 :=
  ⟨logName_unique "prog" "host" "user" 4242 4242 "INFO" "INFO" ⟨2024, 3, 9, 7, 5, 1, 0⟩
    ⟨2024, 3, 9, 7, 5, 1, 999⟩ (by decide) (by decide), by decide⟩

/-! ## C10: file names sort by time -/

theorem stringLe_refl (s : List Char) : stringLe s s = true := by
  induction s with
  | nil => rfl
  | cons c cs ih => simp [stringLe, ih]

theorem stringLe_append_left (p a b : List Char) : stringLe (p ++ a) (p ++ b) = stringLe a b := by
  induction p with
  | nil => rfl
  | cons c cs ih => simp [stringLe, ih]

theorem stringLe_cons_self (c : Char) (a b : List Char) :
    stringLe (c :: a) (c :: b) = stringLe a b := by
  simp [stringLe]

theorem stringLe_iff_not_lex (a : List Char) : ∀ b : List Char,
    stringLe a b = true ↔ ¬ List.Lex (· < ·) b a := by
  induction a with
  | nil => intro b; simp [stringLe, List.Lex.not_nil_right]
  | cons x as ih =>
    intro b
    cases b with
    | nil => simp [stringLe, List.Lex.nil]
    | cons y bs =>
      have hlt : ∀ c d : Char, c < d ↔ c.toNat < d.toNat := fun c d => Iff.rfl
      have hxy : x.toNat = y.toNat → x = y := fun e =>
        Char.ext (UInt32.ext e)
      simp only [stringLe]
      by_cases h1 : x.toNat < y.toNat
      · rw [if_pos h1]
        refine iff_of_true rfl ?_
        intro hl
        cases hl with
        | cons h => omega
        | rel h => exact absurd ((hlt y x).mp h) (by omega)
      · rw [if_neg h1]
        by_cases h2 : y.toNat < x.toNat
        · rw [if_pos h2]
          exact iff_of_false (by simp) (fun hn => hn (List.Lex.rel ((hlt y x).mpr h2)))
        · rw [if_neg h2]
          have hxy' : x = y := hxy (by omega)
          subst hxy'
          rw [ih bs]
          constructor
          · intro hn hl
            cases hl with
            | cons h => exact hn h
            | rel h => exact h2 ((hlt x x).mp h)
          · intro hn hl
            exact hn (List.Lex.cons hl)

theorem stringLe_iff_le (a b : String) : stringLe a.data b.data = true ↔ a ≤ b := by
  rw [stringLe_iff_not_lex, String.le_iff_toList_le]
  exact not_lt (a := b.toList) (b := a.toList)

theorem stringLe_fixedDigits (w : Nat) : ∀ (a b : Nat) (r₁ r₂ : List Char), a < 10 ^ w → b < 10 ^ w →
    stringLe (fixedDigits w a ++ r₁) (fixedDigits w b ++ r₂) =
      if a < b then true else if b < a then false else stringLe r₁ r₂ := by
  induction w with
  | zero =>
    intro a b r₁ r₂ ha hb
    have ha : a = 0 := by simpa using ha
    have hb : b = 0 := by simpa using hb
    subst ha hb
    simp [fixedDigits]
  | succ n ih =>
    intro a b r₁ r₂ ha hb
    have ha' : a / 10 < 10 ^ n := by
      rw [Nat.div_lt_iff_lt_mul (by omega)]; rwa [pow_succ] at ha
    have hb' : b / 10 < 10 ^ n := by
      rw [Nat.div_lt_iff_lt_mul (by omega)]; rwa [pow_succ] at hb
    simp only [fixedDigits, List.append_assoc, List.singleton_append]
    rw [ih (a / 10) (b / 10) _ _ ha' hb']
    simp only [stringLe, digit_toNat (by omega : a % 10 < 10), digit_toNat (by omega : b % 10 < 10)]
    split_ifs <;> first | rfl | omega

theorem stampField_fixedDigits {t : Time} (h : t.valid) (hy : 0 ≤ t.year ∧ t.year ≤ 9999) :
    stampField t = fixedDigits 4 t.year.natAbs ++ (fixedDigits 2 t.month ++ (fixedDigits 2 t.day ++
      ('-' :: (fixedDigits 2 t.hour ++ (fixedDigits 2 t.minute ++ fixedDigits 2 t.second))))) := by
  obtain ⟨_, hm, _, hd, hh, hi, hs⟩ := h
  rw [stampField_zeroPad, fmtInteger_nonneg 4 hy.1,
    zeroPad_eq_fixedDigits 3 t.year.natAbs (by omega), zeroPad_eq_fixedDigits 1 t.month (by omega),
    zeroPad_eq_fixedDigits 1 t.day (by omega), zeroPad_eq_fixedDigits 1 t.hour (by omega),
    zeroPad_eq_fixedDigits 1 t.minute (by omega), zeroPad_eq_fixedDigits 1 t.second (by omega)]

theorem length_stampField {t : Time} (h : t.valid) (hy : 0 ≤ t.year ∧ t.year ≤ 9999) :
    (stampField t).length = 15 := by
  rw [stampField_fixedDigits h hy]
  simp [length_fixedDigits]

theorem ite_lex {a b : Nat} {x : Bool} {P : Prop} (h : x = true ↔ P) :
    (if a < b then true else if b < a then false else x) = true ↔ a < b ∨ (a = b ∧ P) := by
  by_cases h1 : a < b
  · simp [h1]
  · by_cases h2 : b < a
    · have : ¬ a = b := by omega
      simp [h1, h2, this]
    · have : a = b := by omega
      simp [h1, this, h]

theorem stringLe_stampField {t₁ t₂ : Time} (h₁ : t₁.valid) (h₂ : t₂.valid)
    (hy₁ : 0 ≤ t₁.year ∧ t₁.year ≤ 9999) (hy₂ : 0 ≤ t₂.year ∧ t₂.year ≤ 9999) (r : List Char) :
    stringLe (stampField t₁ ++ r) (stampField t₂ ++ r) = true ↔ t₁.notAfter t₂ := by
  rw [stampField_fixedDigits h₁ hy₁, stampField_fixedDigits h₂ hy₂]
  obtain ⟨_, hm₁, _, hd₁, hh₁, hi₁, hs₁⟩ := h₁
  obtain ⟨_, hm₂, _, hd₂, hh₂, hi₂, hs₂⟩ := h₂
  simp only [List.append_assoc, List.cons_append]
  rw [stringLe_fixedDigits 4 _ _ _ _ (by omega) (by omega),
    stringLe_fixedDigits 2 _ _ _ _ (by omega) (by omega),
    stringLe_fixedDigits 2 _ _ _ _ (by omega) (by omega), stringLe_cons_self,
    stringLe_fixedDigits 2 _ _ _ _ (by omega) (by omega),
    stringLe_fixedDigits 2 _ _ _ _ (by omega) (by omega),
    stringLe_fixedDigits 2 _ _ _ _ (by omega) (by omega), stringLe_refl]
  have hsec : (true = true) ↔ True := by simp
  refine (ite_lex (ite_lex (ite_lex (ite_lex (ite_lex (ite_lex hsec)))))).trans ?_
  unfold Time.notAfter
  have hy : t₁.year.natAbs < t₂.year.natAbs ↔ t₁.year < t₂.year := by
    constructor <;> intro h <;> omega
  have hye : t₁.year.natAbs = t₂.year.natAbs ↔ t₁.year = t₂.year := by
    constructor <;> intro h <;> omega
  have hse : t₁.second < t₂.second ∨ t₁.second = t₂.second ∧ True ↔ t₁.second ≤ t₂.second := by
    constructor
    · rintro (h | ⟨h, _⟩) <;> omega
    · intro h
      rcases Nat.lt_or_eq_of_le h with h | h
      · exact Or.inl h
      · exact Or.inr ⟨h, trivial⟩
  rw [hy, hye, hse]

theorem logName_eq_stamp (st : Identity) (tag : String) (t : Time) :
    (logName st tag t).1 = st.program ++ "." ++ st.host ++ "." ++ st.userName ++ ".log." ++ tag ++
      "." ++ String.mk (stampField t) ++ "." ++ decimal st.pid := by
  apply String.ext
  rw [logName_data]
  simp [decimal_data]

/-- C10: for a fixed program, host, user name, tag and process id and two
times with years in 0..9999, the time stamp field of each file name has
exactly 15 characters, the two names have the same length, and the name for
`t₁` is lexicographically less than or equal to the name for `t₂` exactly
when `t₁` is not after `t₂` in (year, month, day, hour, minute, second). -/
theorem logName_sortable (st : Identity) (tag : String) (t₁ t₂ : Time) (h₁ : t₁.valid)
    (h₂ : t₂.valid) (hy₁ : 0 ≤ t₁.year ∧ t₁.year ≤ 9999) (hy₂ : 0 ≤ t₂.year ∧ t₂.year ≤ 9999) :
    (∃ ts : String, ts.length = 15 ∧
        (logName st tag t₁).1 = st.program ++ "." ++ st.host ++ "." ++ st.userName ++ ".log." ++
          tag ++ "." ++ ts ++ "." ++ decimal st.pid) ∧
      (∃ ts : String, ts.length = 15 ∧
        (logName st tag t₂).1 = st.program ++ "." ++ st.host ++ "." ++ st.userName ++ ".log." ++
          tag ++ "." ++ ts ++ "." ++ decimal st.pid) ∧
      (logName st tag t₁).1.length = (logName st tag t₂).1.length ∧
      ((logName st tag t₁).1 ≤ (logName st tag t₂).1 ↔ t₁.notAfter t₂) := by
  refine ⟨⟨String.mk (stampField t₁), length_stampField h₁ hy₁, logName_eq_stamp st tag t₁⟩,
    ⟨String.mk (stampField t₂), length_stampField h₂ hy₂, logName_eq_stamp st tag t₂⟩, ?_, ?_⟩
  · change (logName st tag t₁).1.data.length = (logName st tag t₂).1.data.length
    rw [logName_data, logName_data]
    simp [length_stampField h₁ hy₁, length_stampField h₂ hy₂]
  · rw [← stringLe_iff_le, logName_data, logName_data]
    simp only [stringLe_append_left, stringLe_cons_self]
    exact stringLe_stampField h₁ h₂ hy₁ hy₂ _

/-- C10 at a concrete input: 9 March 2024, 07:05:01 and 23:59:59. -/
theorem logName_sortable_witness :
    (∃ ts : String, ts.length = 15 ∧
        (logName ⟨4242, "prog", "host", "user"⟩ "INFO" ⟨2024, 3, 9, 7, 5, 1, 0⟩).1 =
          "prog" ++ "." ++ "host" ++ "." ++ "user" ++ ".log." ++ "INFO" ++ "." ++ ts ++ "." ++
            decimal 4242) ∧
      (∃ ts : String, ts.length = 15 ∧
        (logName ⟨4242, "prog", "host", "user"⟩ "INFO" ⟨2024, 3, 9, 23, 59, 59, 0⟩).1 =
          "prog" ++ "." ++ "host" ++ "." ++ "user" ++ ".log." ++ "INFO" ++ "." ++ ts ++ "." ++
            decimal 4242) ∧
      (logName ⟨4242, "prog", "host", "user"⟩ "INFO" ⟨2024, 3, 9, 7, 5, 1, 0⟩).1.length =
        (logName ⟨4242, "prog", "host", "user"⟩ "INFO" ⟨2024, 3, 9, 23, 59, 59, 0⟩).1.length ∧
      ((logName ⟨4242, "prog", "host", "user"⟩ "INFO" ⟨2024, 3, 9, 7, 5, 1, 0⟩).1 ≤
          (logName ⟨4242, "prog", "host", "user"⟩ "INFO" ⟨2024, 3, 9, 23, 59, 59, 0⟩).1 ↔
        Time.notAfter ⟨2024, 3, 9, 7, 5, 1, 0⟩ ⟨2024, 3, 9, 23, 59, 59, 0⟩) :=
  logName_sortable ⟨4242, "prog", "host", "user"⟩ "INFO" ⟨2024, 3, 9, 7, 5, 1, 0⟩
    ⟨2024, 3, 9, 23, 59, 59, 0⟩ (by decide) (by decide) (by decide) (by decide)

/-! ## What a successful `create` has done -/

theorem create_err_none {σ φ : Type} {os : OS σ φ} {LogDir : String} {st : Identity}
    {tag : String} {t : Time} {w : σ} (h : (create os LogDir st tag t w).err = none) :
    LogDir ≠ "" ∧ (os.MkdirAll LogDir ModePerm w).2 = none ∧
      ∃ f, (os.OpenFile (os.Join LogDir (logName st tag t).1) (O_RDWR ||| O_CREATE) 0o666
        (os.MkdirAll LogDir ModePerm w).1).2 = Except.ok f := by
  unfold create at h
  by_cases hdir : LogDir = ""
  · rw [if_pos hdir] at h; cases h
  · rw [if_neg hdir] at h
    refine ⟨hdir, ?_⟩
    rcases hm : os.MkdirAll LogDir ModePerm w with ⟨w₁, _ | e⟩
    · rw [hm] at h
      simp only at h
      refine ⟨rfl, ?_⟩
      rcases ho : os.OpenFile (os.Join LogDir (logName st tag t).1) (O_RDWR ||| O_CREATE) 0o666 w₁
        with ⟨w₂, e | f⟩
      · rw [ho] at h; cases h
      · exact ⟨f, rfl⟩
    · rw [hm] at h; cases h

theorem create_of_ok {σ φ : Type} (os : OS σ φ) (LogDir : String) (st : Identity) (tag : String)
    (t : Time) (w : σ) (f : φ) (hdir : LogDir ≠ "")
    (hmk : (os.MkdirAll LogDir ModePerm w).2 = none)
    (hopen : (os.OpenFile (os.Join LogDir (logName st tag t).1) (O_RDWR ||| O_CREATE) 0o666
      (os.MkdirAll LogDir ModePerm w).1).2 = Except.ok f) :
    create os LogDir st tag t w =
      ⟨(os.Symlink (logName st tag t).1 (os.Join LogDir (logName st tag t).2)
          (os.Remove (os.Join LogDir (logName st tag t).2)
            (os.OpenFile (os.Join LogDir (logName st tag t).1) (O_RDWR ||| O_CREATE) 0o666
              (os.MkdirAll LogDir ModePerm w).1).1).1).1,
        some f, os.Join LogDir (logName st tag t).1, none⟩ := by
  have h1 : os.MkdirAll LogDir ModePerm w = ((os.MkdirAll LogDir ModePerm w).1, none) :=
    Prod.ext rfl hmk
  have h2 : os.OpenFile (os.Join LogDir (logName st tag t).1) (O_RDWR ||| O_CREATE) 0o666
      (os.MkdirAll LogDir ModePerm w).1 =
      ((os.OpenFile (os.Join LogDir (logName st tag t).1) (O_RDWR ||| O_CREATE) 0o666
        (os.MkdirAll LogDir ModePerm w).1).1, Except.ok f) := Prod.ext rfl hopen
  unfold create
  rw [if_neg hdir, h1]
  simp only
  rw [h2]

theorem logName_fst_ne_link (st : Identity) (tag : String) (t : Time) :
    (logName st tag t).1 ≠ st.program ++ "." ++ tag := by
  intro h
  have hd := congrArg String.data h
  rw [logName_data] at hd
  simp only [String.data_append, List.append_assoc] at hd
  have hl := congrArg List.length hd
  simp at hl
  omega

theorem link_inj {program tag₁ tag₂ : String} (h : program ++ "." ++ tag₁ = program ++ "." ++ tag₂) :
    tag₁ = tag₂ := by
  have hd := congrArg String.data h
  simp only [String.data_append, List.append_assoc, List.append_cancel_left_eq] at hd
  exact String.ext hd

theorem pathJoin_inj {dir a b : String} (h : pathJoin dir a = pathJoin dir b) : a = b := by
  have hd := congrArg String.data h
  simp only [pathJoin, String.data_append, List.append_assoc, List.append_cancel_left_eq] at hd
  exact String.ext hd

theorem IsDigit.ne_slash {c : Char} (h : IsDigit c) : c ≠ '/' := by
  obtain ⟨k, hk, rfl⟩ := h
  interval_cases k <;> decide

theorem slash_not_mem_zeroPad (w u : Nat) : '/' ∉ zeroPad w u :=
  fun h => (zeroPad_isDigit w u '/' h).ne_slash rfl

theorem slash_not_mem_decDigits (u : Nat) : '/' ∉ decDigits u :=
  fun h => (decDigits_isDigit u '/' h).ne_slash rfl

theorem slash_not_mem_fmtInteger_plain (v : Int) : '/' ∉ fmtInteger false none v := by
  rw [fmtInteger_plain]
  split
  · intro h
    rcases List.mem_cons.mp h with h | h
    · exact absurd h (by decide)
    · exact slash_not_mem_decDigits _ h
  · exact slash_not_mem_decDigits _

theorem slash_not_mem_fmtInteger_year (v : Int) : '/' ∉ fmtInteger true (some 4) v := by
  by_cases hv : v < 0
  · rw [fmtInteger_neg 3 hv]
    intro h
    rcases List.mem_cons.mp h with h | h
    · exact absurd h (by decide)
    · exact slash_not_mem_zeroPad _ _ h
  · rw [fmtInteger_nonneg 4 (by omega)]
    exact slash_not_mem_zeroPad _ _

theorem slash_not_mem_stampField (t : Time) : '/' ∉ stampField t := by
  rw [stampField_zeroPad]
  simp only [List.mem_append, List.mem_cons, not_or]
  exact ⟨slash_not_mem_fmtInteger_year _, slash_not_mem_zeroPad _ _, slash_not_mem_zeroPad _ _,
    by decide, slash_not_mem_zeroPad _ _, slash_not_mem_zeroPad _ _, slash_not_mem_zeroPad _ _⟩

theorem isElem_of_length {a : String} (hl : 3 ≤ a.data.length) (hs : '/' ∉ a.data) : IsElem a := by
  refine ⟨?_, ?_, ?_, hs⟩ <;> intro e <;> rw [e] at hl <;> revert hl <;> decide

theorem isElem_name {st : Identity} {tag : String} (h : SingleElements st tag) (t : Time) :
    IsElem (logName st tag t).1 := by
  obtain ⟨_, _, hp, hh, hu, ht⟩ := h
  apply isElem_of_length
  · rw [logName_data]
    simp only [List.length_append, List.length_cons]
    omega
  · rw [logName_data]
    simp only [List.mem_append, List.mem_cons, not_or]
    exact ⟨hp, by decide, hh, by decide, hu, by decide, by decide, by decide, by decide,
      by decide, ht, by decide, slash_not_mem_stampField t, by decide,
      slash_not_mem_fmtInteger_plain _⟩

theorem isElem_link {st : Identity} {tag : String} (h : SingleElements st tag) :
    IsElem (st.program ++ "." ++ tag) := by
  obtain ⟨hp0, ht0, hp, _, _, ht⟩ := h
  have hpl : 1 ≤ st.program.data.length := by
    rcases hd : st.program.data with _ | ⟨c, cs⟩
    · exact absurd (String.ext hd) hp0
    · simp
  have htl : 1 ≤ tag.data.length := by
    rcases hd : tag.data with _ | ⟨c, cs⟩
    · exact absurd (String.ext hd) ht0
    · simp
  apply isElem_of_length
  · simp only [String.data_append, List.length_append]
    have : ("." : String).data.length = 1 := rfl
    rw [this]
    omega
  · simp only [String.data_append, List.mem_append, not_or]
    exact ⟨⟨hp, by decide⟩, ht⟩

theorem create_world {σ φ : Type} {os : OS σ φ} {LogDir : String} {st : Identity}
    {tag : String} {t : Time} {w : σ} (h : (create os LogDir st tag t w).err = none) :
    (create os LogDir st tag t w).world =
        (os.Symlink (logName st tag t).1 (os.Join LogDir (st.program ++ "." ++ tag))
          (afterRemove os LogDir st tag t w)).1 ∧
      (create os LogDir st tag t w).filename = os.Join LogDir (logName st tag t).1 := by
  obtain ⟨hdir, hmk, f, hopen⟩ := create_err_none h
  rw [create_of_ok os LogDir st tag t w f hdir hmk hopen]
  exact ⟨rfl, rfl⟩

theorem create_frame {σ φ : Type} {os : OS σ φ} {lstat : σ → String → Option Node}
    {LogDir : String} {st : Identity} {tag : String} {t : Time} {w : σ}
    (hlaw : Lawful os lstat LogDir) (hel : SingleElements st tag)
    (hok : (create os LogDir st tag t w).err = none) :
    lstat (create os LogDir st tag t w).world (os.Join LogDir (logName st tag t).1) =
      lstat (afterOpen os LogDir st tag t w) (os.Join LogDir (logName st tag t).1) := by
  have hne : st.program ++ "." ++ tag ≠ (logName st tag t).1 :=
    fun e => logName_fst_ne_link st tag t e.symm
  rw [(create_world hok).1,
    hlaw.symlink_other _ _ _ _ (isElem_link hel) (isElem_name hel t) hne]
  exact hlaw.remove_other _ _ _ (isElem_link hel) (isElem_name hel t) hne

theorem create_recording_calls {σ φ : Type} (os : OS σ φ) (LogDir : String) (st : Identity)
    (tag : String) (t : Time) (w : σ) (calls : List Call)
    (hok : (create os LogDir st tag t w).err = none) :
    (create os.recording LogDir st tag t (w, calls)).world.2 =
      calls ++ [Call.mkdirAll LogDir ModePerm,
        Call.openFile (os.Join LogDir (logName st tag t).1) (O_RDWR ||| O_CREATE) 0o666,
        Call.remove (os.Join LogDir (st.program ++ "." ++ tag)),
        Call.symlink (logName st tag t).1 (os.Join LogDir (st.program ++ "." ++ tag))] := by
  obtain ⟨hdir, hmk, f, hopen⟩ := create_err_none hok
  rw [create_of_ok os.recording LogDir st tag t (w, calls) f hdir hmk hopen]
  simp [OS.recording, logName]

/-! ## C8: the symlink after a successful `create` -/

/-- C8 (as amended): with program, host, user name and tag free of path
separators, on an operating system that obeys `Lawful`, after a successful
`create` whose `os.Symlink` call succeeds, the returned path is
`filepath.Join(LogDir, name)`, the entry the open left at that path is still
there, and the entry at `filepath.Join(LogDir, program.tag)` is a symlink
whose target is the bare name returned by `logName`, whatever was at that
path before. -/
theorem create_updates_symlink {σ φ : Type} (os : OS σ φ) (lstat : σ → String → Option Node)
    (LogDir : String) (st : Identity) (tag : String) (t : Time) (w : σ)
    (hlaw : Lawful os lstat LogDir) (hel : SingleElements st tag)
    (hok : (create os LogDir st tag t w).err = none)
    (hsym : (os.Symlink (logName st tag t).1 (os.Join LogDir (st.program ++ "." ++ tag))
      (afterRemove os LogDir st tag t w)).2 = none) :
    (create os LogDir st tag t w).filename = os.Join LogDir (logName st tag t).1 ∧
      lstat (create os LogDir st tag t w).world (os.Join LogDir (logName st tag t).1) =
        lstat (afterOpen os LogDir st tag t w) (os.Join LogDir (logName st tag t).1) ∧
      (lstat (create os LogDir st tag t w).world
        (os.Join LogDir (logName st tag t).1)).isSome = true ∧
      lstat (create os LogDir st tag t w).world (os.Join LogDir (st.program ++ "." ++ tag)) =
        some (Node.symlink (logName st tag t).1) := by
  obtain ⟨_, _, f, hopen⟩ := create_err_none hok
  refine ⟨(create_world hok).2, create_frame hlaw hel hok, ?_, ?_⟩
  · rw [create_frame hlaw hel hok]
    exact hlaw.open_made _ _ _ _ f (isElem_name hel t) hopen
  · rw [(create_world hok).1]
    exact hlaw.symlink_made _ _ _ (isElem_link hel) hsym

/-! ## C9: `create` opens or creates, and never truncates -/

/-- C9 (as amended): with program, host, user name and tag free of path
separators, on an operating system that obeys `Lawful`, a successful
`create` has made the four calls `MkdirAll(LogDir, ModePerm)`,
`OpenFile(path, O_RDWR|O_CREATE, 0666)`, `Remove(symlink)` and
`Symlink(name, symlink)`, returns the path `filepath.Join(LogDir, name)`,
leaves a file that was at that path with the contents it had, and leaves an
empty file there where there was no entry. -/
theorem create_never_truncates {σ φ : Type} (os : OS σ φ) (lstat : σ → String → Option Node)
    (LogDir : String) (st : Identity) (tag : String) (t : Time) (w : σ)
    (hlaw : Lawful os lstat LogDir) (hel : SingleElements st tag)
    (hok : (create os LogDir st tag t w).err = none) :
    (create os.recording LogDir st tag t (w, [])).world.2 =
        [Call.mkdirAll LogDir ModePerm,
          Call.openFile (os.Join LogDir (logName st tag t).1) (O_RDWR ||| O_CREATE) 0o666,
          Call.remove (os.Join LogDir (st.program ++ "." ++ tag)),
          Call.symlink (logName st tag t).1 (os.Join LogDir (st.program ++ "." ++ tag))] ∧
      (create os LogDir st tag t w).filename = os.Join LogDir (logName st tag t).1 ∧
      (∀ data, lstat w (os.Join LogDir (logName st tag t).1) = some (Node.file data) →
        lstat (create os LogDir st tag t w).world (os.Join LogDir (logName st tag t).1) =
          some (Node.file data)) ∧
      (lstat w (os.Join LogDir (logName st tag t).1) = none →
        lstat (create os LogDir st tag t w).world (os.Join LogDir (logName st tag t).1) =
          some (Node.file "")) := by
  obtain ⟨_, _, f, hopen⟩ := create_err_none hok
  have hmk := hlaw.mkdir_other ModePerm _ w (isElem_name hel t)
  refine ⟨by simpa using create_recording_calls os LogDir st tag t w [] hok,
    (create_world hok).2, ?_, ?_⟩
  · intro data hd
    rw [create_frame hlaw hel hok]
    exact hlaw.open_kept _ _ _ _ data (isElem_name hel t) (by decide) (hmk.trans hd)
  · intro hd
    rw [create_frame hlaw hel hok]
    exact hlaw.open_created _ _ _ _ f (isElem_name hel t) (by decide) (hmk.trans hd) hopen

/-! ## C7: two calls with different tags -/

theorem remove_symlink_frame {σ φ : Type} {os : OS σ φ} {lstat : σ → String → Option Node}
    {LogDir : String} {st : Identity} {tag : String} {t : Time} {w : σ} {b : String}
    (hlaw : Lawful os lstat LogDir) (hel : SingleElements st tag) (hb : IsElem b)
    (hne : st.program ++ "." ++ tag ≠ b) (hok : (create os LogDir st tag t w).err = none) :
    lstat (create os LogDir st tag t w).world (os.Join LogDir b) =
      lstat (afterOpen os LogDir st tag t w) (os.Join LogDir b) := by
  rw [(create_world hok).1, hlaw.symlink_other _ _ _ _ (isElem_link hel) hb hne]
  exact hlaw.remove_other _ _ _ (isElem_link hel) hb hne

/-- C7 (as amended): for two different tags, with program, host, user name
and both tags free of path separators and the symlink name of the second
call, `program.T2`, not the file name of the first, on an operating system
that obeys `Lawful`, two successful calls of `create` one after the other
return two different file paths and use two different symlink paths, and the
remove-and-symlink step of the second call leaves the entries at the first
call's file path and symlink path as they were before that step. -/
theorem create_two_tags {σ φ : Type} (os : OS σ φ) (lstat : σ → String → Option Node)
    (LogDir : String) (st : Identity) (tag₁ tag₂ : String) (t₁ t₂ : Time) (w : σ)
    (hlaw : Lawful os lstat LogDir) (hel₁ : SingleElements st tag₁)
    (hel₂ : SingleElements st tag₂) (hT : tag₁ ≠ tag₂) (hv₁ : t₁.valid) (hv₂ : t₂.valid)
    (hlink : st.program ++ "." ++ tag₂ ≠ (logName st tag₁ t₁).1)
    (hok₁ : (createTwice os LogDir st tag₁ t₁ tag₂ t₂ w).1.err = none)
    (hok₂ : (createTwice os LogDir st tag₁ t₁ tag₂ t₂ w).2.err = none) :
    (createTwice os LogDir st tag₁ t₁ tag₂ t₂ w).1.filename ≠
        (createTwice os LogDir st tag₁ t₁ tag₂ t₂ w).2.filename ∧
      os.Join LogDir (st.program ++ "." ++ tag₁) ≠ os.Join LogDir (st.program ++ "." ++ tag₂) ∧
      lstat (createTwice os LogDir st tag₁ t₁ tag₂ t₂ w).2.world
          (createTwice os LogDir st tag₁ t₁ tag₂ t₂ w).1.filename =
        lstat (afterOpen os LogDir st tag₂ t₂ (createTwice os LogDir st tag₁ t₁ tag₂ t₂ w).1.world)
          (createTwice os LogDir st tag₁ t₁ tag₂ t₂ w).1.filename ∧
      lstat (createTwice os LogDir st tag₁ t₁ tag₂ t₂ w).2.world
          (os.Join LogDir (st.program ++ "." ++ tag₁)) =
        lstat (afterOpen os LogDir st tag₂ t₂ (createTwice os LogDir st tag₁ t₁ tag₂ t₂ w).1.world)
          (os.Join LogDir (st.program ++ "." ++ tag₁)) := by
  have hN : (logName st tag₁ t₁).1 ≠ (logName st tag₂ t₂).1 := by
    obtain ⟨pid, program, host, userName⟩ := st
    exact fun e => hT (logName_inj hv₁ hv₂ e).1
  have hL : st.program ++ "." ++ tag₂ ≠ st.program ++ "." ++ tag₁ :=
    fun e => hT (link_inj e).symm
  simp only [createTwice] at *
  rw [(create_world hok₁).2, (create_world hok₂).2]
  refine ⟨fun e => hN (hlaw.join_inj _ _ (isElem_name hel₁ t₁) (isElem_name hel₂ t₂) e),
    fun e => hL (hlaw.join_inj _ _ (isElem_link hel₁) (isElem_link hel₂) e).symm,
    remove_symlink_frame hlaw hel₂ (isElem_name hel₁ t₁) hlink hok₂,
    remove_symlink_frame hlaw hel₂ (isElem_link hel₁) hL hok₂⟩

/-! ## The file system obeys the assumptions -/

theorem FS.Remove_node_ne {name q : String} (fs : FS) (h : q ≠ name) :
    (FS.Remove name fs).1.node q = fs.node q := by
  unfold FS.Remove
  rcases fs.node name with _ | _ <;> rcases fs.denied name <;> simp [FS.set, h]

theorem FS.Symlink_node_ne {newname q : String} (oldname : String) (fs : FS) (h : q ≠ newname) :
    (FS.Symlink oldname newname fs).1.node q = fs.node q := by
  unfold FS.Symlink
  rcases fs.node newname with _ | _ <;> rcases fs.parentOK newname <;>
    rcases fs.denied newname <;> simp [FS.set, h]

theorem FS.Symlink_node_made {oldname newname : String} {fs : FS}
    (h : (FS.Symlink oldname newname fs).2 = none) :
    (FS.Symlink oldname newname fs).1.node newname = some (Node.symlink oldname) := by
  unfold FS.Symlink at h ⊢
  rcases hn : fs.node newname with _ | _ <;> rcases hp : fs.parentOK newname <;>
    rcases hd : fs.denied newname <;> simp [FS.set, hn, hp, hd] at h ⊢

theorem FS.follow_self {fs : FS} {path : String} (fuel : Nat)
    (h : ∀ target, fs.node path ≠ some (Node.symlink target)) :
    fs.follow (fuel + 1) path = some path := by
  unfold FS.follow
  rcases hn : fs.node path with _ | _ | target | _
  · rfl
  · rfl
  · exact absurd hn (h target)
  · rfl

theorem FS.follow_cases {fs : FS} {fuel : Nat} {name path : String}
    (h : fs.follow fuel name = some path) :
    path = name ∨ ∃ target, fs.node name = some (Node.symlink target) := by
  cases fuel with
  | zero => cases h
  | succ n =>
    unfold FS.follow at h
    rcases hn : fs.node name with _ | _ | target | _
    · rw [hn] at h; exact Or.inl (Option.some.inj h).symm
    · rw [hn] at h; exact Or.inl (Option.some.inj h).symm
    · exact Or.inr ⟨target, rfl⟩
    · rw [hn] at h; exact Or.inl (Option.some.inj h).symm

theorem FS.mkdirs_node (ds : List String) : ∀ (fs : FS) (q : String), q ∉ ds →
    (FS.mkdirs fs ds).1.node q = fs.node q := by
  induction ds with
  | nil => intro fs q _; rfl
  | cons d ds ih =>
    intro fs q hq
    have hd : q ≠ d := fun e => hq (by simp [e])
    have hds : q ∉ ds := fun e => hq (List.mem_cons_of_mem _ e)
    unfold FS.mkdirs
    split
    · exact ih fs q hds
    · split
      · split
        · rfl
        · rw [ih _ q hds]; simp [FS.set, hd]
      · rfl

theorem length_of_mem_ancestors {path d : String} (h : d ∈ ancestors path) :
    d.data.length < path.data.length := by
  unfold ancestors at h
  obtain ⟨i, hi, hd⟩ := List.mem_filterMap.mp h
  have hi' : i < path.data.length := List.mem_range.mp hi
  split at hd
  · cases hd
    simp only [List.length_take]
    omega
  · cases hd

theorem pathJoin_not_mem (dir a : String) : pathJoin dir a ∉ ancestors dir ++ [dir] := by
  intro h
  have hl : dir.data.length < (pathJoin dir a).data.length := by
    simp [pathJoin, String.data_append]
  rcases List.mem_append.mp h with h | h
  · have := length_of_mem_ancestors h
    omega
  · rw [List.mem_singleton.mp h] at hl
    omega

theorem FS.follow_maxLinks {fs : FS} {path : String}
    (h : ∀ target, fs.node path ≠ some (Node.symlink target)) :
    fs.follow maxLinks path = some path :=
  FS.follow_self 39 h

theorem FS.OpenFile_kept {name : String} {flag : Nat} (perm : Nat) {fs : FS} {data : String}
    (ht : flag &&& O_TRUNC = 0) (hn : fs.node name = some (Node.file data)) :
    (FS.OpenFile name flag perm fs).1.node name = some (Node.file data) := by
  have hf : fs.follow maxLinks name = some name :=
    FS.follow_maxLinks (fun target e => by rw [hn] at e; cases e)
  unfold FS.OpenFile
  rw [hf]
  simp only
  split
  · exact hn
  · rw [hn]
    simp only [ht, ne_eq, not_true_eq_false, if_false]
    exact hn

theorem FS.OpenFile_created {name : String} {flag : Nat} (perm : Nat) {fs : FS} {f : File}
    (hn : fs.node name = none) (h : (FS.OpenFile name flag perm fs).2 = Except.ok f) :
    (FS.OpenFile name flag perm fs).1.node name = some (Node.file "") := by
  have hf : fs.follow maxLinks name = some name :=
    FS.follow_maxLinks (fun target e => by rw [hn] at e; cases e)
  unfold FS.OpenFile at h ⊢
  rw [hf] at h ⊢
  simp only [hn, ne_eq, not_true_eq_false, and_false, if_false] at h ⊢
  split at h
  · cases h
  · split at h
    · cases h
    · rename_i h1 h2
      rw [if_neg h1, if_neg h2]
      simp [FS.set]

theorem FS.OpenFile_made {name : String} {flag : Nat} (perm : Nat) {fs : FS} {f : File}
    (h : (FS.OpenFile name flag perm fs).2 = Except.ok f) :
    ((FS.OpenFile name flag perm fs).1.node name).isSome = true := by
  unfold FS.OpenFile at h ⊢
  rcases hf : fs.follow maxLinks name with _ | path
  · rw [hf] at h; cases h
  · rw [hf] at h
    simp only at h ⊢
    have key : ∀ n : Option Node, (path = name → n.isSome = true) →
        ((fs.set path n).node name).isSome = true ∧ (path = name → n.isSome = true) := by
      intro n hn
      refine ⟨?_, hn⟩
      by_cases e : name = path
      · simp [FS.set, e, hn e.symm]
      · rcases FS.follow_cases hf with e' | ⟨target, ht⟩
        · exact absurd e'.symm e
        · simp [FS.set, e, ht]
    have old : (fs.node path).isSome = true → (fs.node name).isSome = true := by
      intro hp
      rcases FS.follow_cases hf with e' | ⟨target, ht⟩
      · rw [← e']; exact hp
      · simp [ht]
    by_cases hx : flag &&& O_CREATE ≠ 0 ∧ flag &&& O_EXCL ≠ 0 ∧ fs.node name ≠ none
    · rw [if_pos hx] at h; cases h
    · rw [if_neg hx] at h ⊢
      rcases hp : fs.node path with _ | _ | _ | _
      · rw [hp] at h
        simp only at h ⊢
        by_cases h1 : flag &&& O_CREATE = 0 ∨ fs.parentOK path = false
        · rw [if_pos h1] at h; cases h
        · rw [if_neg h1] at h ⊢
          by_cases h2 : fs.denied path = true
          · rw [if_pos h2] at h; cases h
          · rw [if_neg h2]
            exact (key (some (Node.file "")) (fun _ => rfl)).1
      · simp only
        split
        · exact (key (some (Node.file "")) (fun _ => rfl)).1
        · exact old (by rw [hp]; rfl)
      · rw [hp] at h; cases h
      · rw [hp] at h; cases h

theorem posix_lawful (dir : String) : Lawful (posix pathJoin) FS.node dir where
  join_inj := fun _ _ _ _ e => pathJoin_inj e
  mkdir_other := fun _ a s _ => FS.mkdirs_node _ s _ (pathJoin_not_mem dir a)
  open_made := fun _ _ perm _ _ _ h => FS.OpenFile_made perm h
  open_kept := fun _ _ perm _ _ _ ht hn => FS.OpenFile_kept perm ht hn
  open_created := fun _ _ perm _ _ _ _ hn h => FS.OpenFile_created perm hn h
  remove_other := fun _ _ s _ _ hne =>
    FS.Remove_node_ne s (fun e => hne (pathJoin_inj e).symm)
  symlink_other := fun o _ _ s _ _ hne =>
    FS.Symlink_node_ne o s (fun e => hne (pathJoin_inj e).symm)
  symlink_made := fun _ _ _ _ h => FS.Symlink_node_made h

/-! ## The claims about the file system at concrete inputs -/

/-- C8 at a concrete input: the symlink for `A` pointed at an older file
and is moved to the new one. -/
theorem create_updates_symlink_witness :
    FS.stale.node "log/prog.A" = some (Node.symlink "prog.host.user.log.A.20240101-000000.4242") ∧
      (create (posix pathJoin) "log" Identity.sample "A" Time.sample FS.stale).filename =
        pathJoin "log" (logName Identity.sample "A" Time.sample).1 ∧
      (create (posix pathJoin) "log" Identity.sample "A" Time.sample FS.stale).world.node
          (pathJoin "log" (logName Identity.sample "A" Time.sample).1) =
        (afterOpen (posix pathJoin) "log" Identity.sample "A" Time.sample FS.stale).node
          (pathJoin "log" (logName Identity.sample "A" Time.sample).1) ∧
      ((create (posix pathJoin) "log" Identity.sample "A" Time.sample FS.stale).world.node
        (pathJoin "log" (logName Identity.sample "A" Time.sample).1)).isSome = true ∧
      (create (posix pathJoin) "log" Identity.sample "A" Time.sample FS.stale).world.node
          (pathJoin "log" (Identity.sample.program ++ "." ++ "A")) =
        some (Node.symlink (logName Identity.sample "A" Time.sample).1) :=
  ⟨by decide,
    create_updates_symlink (posix pathJoin) FS.node "log" Identity.sample "A" Time.sample
      FS.stale (posix_lawful "log") (by decide) (by decide) (by decide)⟩

/-- C8, refuted as stated: with the user name `x/../u` the file name and the
symlink name are joined to the same path. `create` succeeds, `os.Remove` and
`os.Symlink` succeed, and the returned path then holds the symlink, which
leads nowhere: the path does not exist as `os.Stat` sees it, and the log
file that was there is gone. -/
theorem returned_path_taken_by_symlink :
    (create (posix filepathJoin) "log" Identity.crossing "20240309-070501.4242" Time.sample
        FS.crossing).err = none ∧
      (FS.Remove (filepathJoin "log" (Identity.crossing.program ++ "." ++ "20240309-070501.4242"))
        (afterOpen (posix filepathJoin) "log" Identity.crossing "20240309-070501.4242" Time.sample
          FS.crossing)).2 = none ∧
      (FS.Symlink (logName Identity.crossing "20240309-070501.4242" Time.sample).1
        (filepathJoin "log" (Identity.crossing.program ++ "." ++ "20240309-070501.4242"))
        (afterRemove (posix filepathJoin) "log" Identity.crossing "20240309-070501.4242"
          Time.sample FS.crossing)).2 = none ∧
      (create (posix filepathJoin) "log" Identity.crossing "20240309-070501.4242" Time.sample
        FS.crossing).filename = "log/u.log.20240309-070501.4242.20240309-070501.4242" ∧
      filepathJoin "log" (Identity.crossing.program ++ "." ++ "20240309-070501.4242") =
        "log/u.log.20240309-070501.4242.20240309-070501.4242" ∧
      (create (posix filepathJoin) "log" Identity.crossing "20240309-070501.4242" Time.sample
        FS.crossing).world.stat "log/u.log.20240309-070501.4242.20240309-070501.4242" = none := by
  decide

/-- C9 at a concrete input: there is no log file of this second yet and an
empty one is made; and where one is there already, with contents, it is
opened as it is. -/
theorem create_never_truncates_witness :
    FS.stale.node (pathJoin "log" (logName Identity.sample "A" Time.sample).1) = none ∧
      (create (posix pathJoin) "log" Identity.sample "A" Time.sample FS.written).err = none ∧
      FS.written.node "log/prog.host.user.log.A.20240309-070501.4242" =
        some (Node.file "earlier lines") ∧
      (create (posix pathJoin) "log" Identity.sample "A" Time.sample FS.written).world.node
        "log/prog.host.user.log.A.20240309-070501.4242" = some (Node.file "earlier lines") ∧
      (create (posix pathJoin).recording "log" Identity.sample "A" Time.sample
          (FS.stale, [])).world.2 =
        [Call.mkdirAll "log" ModePerm,
          Call.openFile (pathJoin "log" (logName Identity.sample "A" Time.sample).1)
            (O_RDWR ||| O_CREATE) 0o666,
          Call.remove (pathJoin "log" (Identity.sample.program ++ "." ++ "A")),
          Call.symlink (logName Identity.sample "A" Time.sample).1
            (pathJoin "log" (Identity.sample.program ++ "." ++ "A"))] ∧
      (create (posix pathJoin) "log" Identity.sample "A" Time.sample FS.stale).filename =
        pathJoin "log" (logName Identity.sample "A" Time.sample).1 ∧
      (∀ data, FS.stale.node (pathJoin "log" (logName Identity.sample "A" Time.sample).1) =
          some (Node.file data) →
        (create (posix pathJoin) "log" Identity.sample "A" Time.sample FS.stale).world.node
          (pathJoin "log" (logName Identity.sample "A" Time.sample).1) = some (Node.file data)) ∧
      (FS.stale.node (pathJoin "log" (logName Identity.sample "A" Time.sample).1) = none →
        (create (posix pathJoin) "log" Identity.sample "A" Time.sample FS.stale).world.node
          (pathJoin "log" (logName Identity.sample "A" Time.sample).1) = some (Node.file "")) :=
  ⟨by decide, by decide, by decide, by decide,
    create_never_truncates (posix pathJoin) FS.node "log" Identity.sample "A" Time.sample
      FS.stale (posix_lawful "log") (by decide) (by decide)⟩

/-- C9, refuted as stated: with the user name `x/../u` the file path is also
the symlink path. The log file is there with contents before the call;
`create` succeeds and returns its path; afterwards the file is gone and a
symlink is in its place. -/
theorem existing_file_replaced_by_symlink :
    FS.crossing.node "log/u.log.20240309-070501.4242.20240309-070501.4242" =
        some (Node.file "earlier lines") ∧
      (create (posix filepathJoin) "log" Identity.crossing "20240309-070501.4242" Time.sample
        FS.crossing).err = none ∧
      (create (posix filepathJoin) "log" Identity.crossing "20240309-070501.4242" Time.sample
        FS.crossing).filename = "log/u.log.20240309-070501.4242.20240309-070501.4242" ∧
      filepathJoin "log" (logName Identity.crossing "20240309-070501.4242" Time.sample).1 =
        "log/u.log.20240309-070501.4242.20240309-070501.4242" ∧
      (create (posix filepathJoin) "log" Identity.crossing "20240309-070501.4242" Time.sample
        FS.crossing).world.node "log/u.log.20240309-070501.4242.20240309-070501.4242" =
        some (Node.symlink (logName Identity.crossing "20240309-070501.4242" Time.sample).1) := by
  decide

/-- C7 at a concrete input: the tags `INFO` and `WARNING`, one second apart,
into an empty file system. -/
theorem create_two_tags_witness :
    (createTwice (posix pathJoin) "log" Identity.sample "INFO" Time.sample "WARNING"
          ⟨2024, 3, 9, 7, 5, 2, 0⟩ FS.empty).1.filename ≠
        (createTwice (posix pathJoin) "log" Identity.sample "INFO" Time.sample "WARNING"
          ⟨2024, 3, 9, 7, 5, 2, 0⟩ FS.empty).2.filename ∧
      pathJoin "log" (Identity.sample.program ++ "." ++ "INFO") ≠
        pathJoin "log" (Identity.sample.program ++ "." ++ "WARNING") ∧
      (createTwice (posix pathJoin) "log" Identity.sample "INFO" Time.sample "WARNING"
          ⟨2024, 3, 9, 7, 5, 2, 0⟩ FS.empty).2.world.node
          (createTwice (posix pathJoin) "log" Identity.sample "INFO" Time.sample "WARNING"
            ⟨2024, 3, 9, 7, 5, 2, 0⟩ FS.empty).1.filename =
        (afterOpen (posix pathJoin) "log" Identity.sample "WARNING" ⟨2024, 3, 9, 7, 5, 2, 0⟩
          (createTwice (posix pathJoin) "log" Identity.sample "INFO" Time.sample "WARNING"
            ⟨2024, 3, 9, 7, 5, 2, 0⟩ FS.empty).1.world).node
          (createTwice (posix pathJoin) "log" Identity.sample "INFO" Time.sample "WARNING"
            ⟨2024, 3, 9, 7, 5, 2, 0⟩ FS.empty).1.filename ∧
      (createTwice (posix pathJoin) "log" Identity.sample "INFO" Time.sample "WARNING"
          ⟨2024, 3, 9, 7, 5, 2, 0⟩ FS.empty).2.world.node
          (pathJoin "log" (Identity.sample.program ++ "." ++ "INFO")) =
        (afterOpen (posix pathJoin) "log" Identity.sample "WARNING" ⟨2024, 3, 9, 7, 5, 2, 0⟩
          (createTwice (posix pathJoin) "log" Identity.sample "INFO" Time.sample "WARNING"
            ⟨2024, 3, 9, 7, 5, 2, 0⟩ FS.empty).1.world).node
          (pathJoin "log" (Identity.sample.program ++ "." ++ "INFO")) :=
  create_two_tags (posix pathJoin) FS.node "log" Identity.sample "INFO" "WARNING" Time.sample
    ⟨2024, 3, 9, 7, 5, 2, 0⟩ FS.empty (posix_lawful "log") (by decide) (by decide) (by decide)
    (by decide) (by decide) (by decide) (by decide) (by decide)

/-- C7, refuted as stated: the tag `A` and then the tag
`host.user.log.A.20240309-070501.4242`, a different one. Both calls succeed;
the symlink path of the second call is the file path of the first, and after
the second call the first log file is gone and a symlink is in its place. -/
theorem second_symlink_replaces_first_file :
    ("A" : String) ≠ "host.user.log.A.20240309-070501.4242" ∧
      (createTwice (posix pathJoin) "log" Identity.sample "A" Time.sample
        "host.user.log.A.20240309-070501.4242" ⟨2024, 3, 9, 7, 5, 2, 0⟩ FS.empty).1.err = none ∧
      (createTwice (posix pathJoin) "log" Identity.sample "A" Time.sample
        "host.user.log.A.20240309-070501.4242" ⟨2024, 3, 9, 7, 5, 2, 0⟩ FS.empty).2.err = none ∧
      (createTwice (posix pathJoin) "log" Identity.sample "A" Time.sample
        "host.user.log.A.20240309-070501.4242" ⟨2024, 3, 9, 7, 5, 2, 0⟩ FS.empty).1.filename =
          "log/prog.host.user.log.A.20240309-070501.4242" ∧
      pathJoin "log" (Identity.sample.program ++ "." ++ "host.user.log.A.20240309-070501.4242") =
        "log/prog.host.user.log.A.20240309-070501.4242" ∧
      (createTwice (posix pathJoin) "log" Identity.sample "A" Time.sample
        "host.user.log.A.20240309-070501.4242" ⟨2024, 3, 9, 7, 5, 2, 0⟩ FS.empty).1.world.node
          "log/prog.host.user.log.A.20240309-070501.4242" = some (Node.file "") ∧
      (createTwice (posix pathJoin) "log" Identity.sample "A" Time.sample
        "host.user.log.A.20240309-070501.4242" ⟨2024, 3, 9, 7, 5, 2, 0⟩ FS.empty).2.world.node
          "log/prog.host.user.log.A.20240309-070501.4242" =
        some (Node.symlink
          "prog.host.user.log.host.user.log.A.20240309-070501.4242.20240309-070502.4242") := by
  decide

end LogFile
